import Mathlib

/-!
Verification development for the graph-rag Graph/Block Dual-Store Ingestion
Engine (`graph_rag/api/docs_ingestion/{services,routes,models}.py`).

The Python service is shallowly embedded: pure helpers become Lean functions
on `List Char` / `String`; the two stores (Neo4j graph, PostgreSQL block
table) become one explicit `StoreState` record manipulated by pure state
transformers that mirror each Cypher/SQL statement of the source.  Python
`datetime()` / `NOW()` ticks are modelled by a logical clock, `randomUUID()`
by a counter; DB-managed timestamp columns of the block table are abstracted
away (the service never reads them back except for display).
-/

namespace GraphRag

/-! ## Predicate normalizer
Embedding of `GraphIngestionService._sanitize_relationship_type`
(services.py, lines 220-235). -/

/-- One character of `predicate.upper()` (Python `str.upper`, ASCII model). -/
def upperChar (c : Char) : Char := c.toUpper

/-- One character of `.replace(" ", "_")`. -/
def spaceToUnderscore (c : Char) : Char := if c = ' ' then '_' else c

/-- One character of
`"".join(c if c.isalnum() or c == "_" else "_" for c in sanitized)`. -/
def keepAlnumChar (c : Char) : Char := if c.isAlphanum ∨ c = '_' then c else '_'

/-- Fixpoint of `while "__" in sanitized: sanitized = sanitized.replace("__", "_")`:
each run of consecutive underscores collapses to a single underscore. -/
def collapseUnderscores : List Char → List Char
  | [] => []
  | [c] => [c]
  | c₁ :: c₂ :: rest =>
    if c₁ = '_' ∧ c₂ = '_' then collapseUnderscores (c₂ :: rest)
    else c₁ :: collapseUnderscores (c₂ :: rest)

/-- `sanitized.strip("_")`: drop leading and trailing underscores. -/
def stripUnderscores (l : List Char) : List Char :=
  ((l.dropWhile (fun c => c = '_')).reverse.dropWhile (fun c => c = '_')).reverse

/-- The character pipeline of `_sanitize_relationship_type` before the
`or "RELATED_TO"` fallback. -/
def sanitizeChars (l : List Char) : List Char :=
  stripUnderscores (collapseUnderscores (((l.map upperChar).map spaceToUnderscore).map keepAlnumChar))

/-- `GraphIngestionService._sanitize_relationship_type` (services.py 220-235). -/
def sanitizeRelationshipType (p : String) : String :=
  let s := sanitizeChars p.data
  if s = [] then "RELATED_TO" else String.mk s

/-- The normalizer algorithm as the spec words it (§4.1): uppercase; whitespace
to underscore; "strip every character that is not alphanumeric or underscore";
collapse double underscores; trim; fallback.  Refinement comparison definition,
written from the spec text, not from the source. -/
def specNormalizeChars (l : List Char) : List Char :=
  stripUnderscores (collapseUnderscores
    (((l.map upperChar).map (fun c => if c.isWhitespace then '_' else c)).filter
      (fun c => c.isAlphanum || c == '_')))

/-- Spec-worded normalizer with the `RELATED_TO` fallback (comparison definition). -/
def specNormalize (p : String) : String :=
  let s := specNormalizeChars p.data
  if s = [] then "RELATED_TO" else String.mk s

/-- Amended algorithm: identical to the spec text except that every character
that is not alphanumeric or underscore is replaced by an underscore rather
than stripped. -/
def amendedNormalizeChars (l : List Char) : List Char :=
  stripUnderscores (collapseUnderscores
    (((l.map upperChar).map (fun c => if c.isWhitespace then '_' else c)).map keepAlnumChar))

/-- Amended normalizer with the `RELATED_TO` fallback. -/
def amendedNormalize (p : String) : String :=
  let s := amendedNormalizeChars p.data
  if s = [] then "RELATED_TO" else String.mk s

/-! ### Canonical-form theory for the normalizer -/

/-- Adjacent characters are not both underscores. -/
def Rdd (a b : Char) : Prop := ¬(a = '_' ∧ b = '_')

instance : DecidableRel Rdd := fun a b =>
  inferInstanceAs (Decidable (¬(a = '_' ∧ b = '_')))

/-- A character the normalizer pipeline leaves unchanged. -/
def goodChar (c : Char) : Prop := c.toUpper = c ∧ (c.isAlphanum ∨ c = '_')

instance : DecidablePred goodChar := fun c =>
  inferInstanceAs (Decidable (c.toUpper = c ∧ (c.isAlphanum ∨ c = '_')))

/-- Canonical relationship-type tokens: fixed points of the character pipeline. -/
def canonicalRelType (l : List Char) : Prop :=
  (∀ c ∈ l, goodChar c) ∧ List.Chain' Rdd l ∧ l.head? ≠ some '_' ∧ l.getLast? ≠ some '_'

instance (l : List Char) : Decidable (canonicalRelType l) :=
  inferInstanceAs (Decidable ((∀ c ∈ l, goodChar c) ∧ _ ∧ _ ∧ _))

theorem toUpper_def (c : Char) :
    c.toUpper = if c.toNat ≥ 97 ∧ c.toNat ≤ 122 then Char.ofNat (c.toNat - 32) else c := rfl

theorem toUpper_idem (c : Char) : c.toUpper.toUpper = c.toUpper := by
  have key : ∀ n : Nat, 97 ≤ n → n ≤ 122 →
      (Char.ofNat (n - 32)).toUpper = Char.ofNat (n - 32) := by
    intro n h1 h2
    interval_cases n <;> decide
  by_cases h : c.toNat ≥ 97 ∧ c.toNat ≤ 122
  · rw [toUpper_def c, if_pos h]
    exact key c.toNat h.1 h.2
  · rw [toUpper_def c, if_neg h, toUpper_def c, if_neg h]

theorem goodChar_underscore : goodChar '_' := by decide

theorem goodChar_pipeline (c : Char) :
    goodChar (keepAlnumChar (spaceToUnderscore (upperChar c))) := by
  by_cases hs : upperChar c = ' '
  · rw [hs]; decide
  · have hsp : spaceToUnderscore (upperChar c) = upperChar c := if_neg hs
    rw [hsp]
    unfold keepAlnumChar
    by_cases hk : (upperChar c).isAlphanum ∨ upperChar c = '_'
    · rw [if_pos hk]
      exact ⟨toUpper_idem c, hk⟩
    · rw [if_neg hk]
      exact goodChar_underscore

theorem collapse_cons : ∀ (r : List Char) (c : Char),
    ∃ t, collapseUnderscores (c :: r) = c :: t
  | [], _ => ⟨[], rfl⟩
  | c₂ :: rest, c => by
    obtain ⟨t, ht⟩ := collapse_cons rest c₂
    by_cases h : c = '_' ∧ c₂ = '_'
    · refine ⟨t, ?_⟩
      simp only [collapseUnderscores, if_pos h, ht]
      rw [h.1, h.2]
    · exact ⟨collapseUnderscores (c₂ :: rest), by simp only [collapseUnderscores, if_neg h]⟩

theorem chain'_collapse : ∀ l : List Char, List.Chain' Rdd (collapseUnderscores l)
  | [] => List.chain'_nil
  | [c] => by simp [collapseUnderscores]
  | c₁ :: c₂ :: rest => by
    have ih := chain'_collapse (c₂ :: rest)
    by_cases h : c₁ = '_' ∧ c₂ = '_'
    · simpa only [collapseUnderscores, if_pos h] using ih
    · simp only [collapseUnderscores, if_neg h]
      obtain ⟨t, ht⟩ := collapse_cons rest c₂
      rw [ht]
      rw [ht] at ih
      exact List.chain'_cons.mpr ⟨h, ih⟩

theorem collapse_eq_self : ∀ l : List Char, List.Chain' Rdd l → collapseUnderscores l = l
  | [], _ => rfl
  | [_], _ => rfl
  | c₁ :: c₂ :: rest, h => by
    rw [List.chain'_cons] at h
    simp only [collapseUnderscores, if_neg h.1]
    rw [collapse_eq_self (c₂ :: rest) h.2]

theorem mem_of_mem_collapse : ∀ (l : List Char) (c : Char), c ∈ collapseUnderscores l → c ∈ l
  | [], _ => by simp [collapseUnderscores]
  | [_], _ => by simp [collapseUnderscores]
  | c₁ :: c₂ :: rest, c => by
    intro h
    by_cases hd : c₁ = '_' ∧ c₂ = '_'
    · simp only [collapseUnderscores, if_pos hd] at h
      exact List.mem_cons_of_mem _ (mem_of_mem_collapse (c₂ :: rest) c h)
    · simp only [collapseUnderscores, if_neg hd, List.mem_cons] at h
      rcases h with h | h
      · exact h ▸ List.mem_cons_self _ _
      · exact List.mem_cons_of_mem _ (mem_of_mem_collapse (c₂ :: rest) c h)

theorem mem_of_mem_strip (l : List Char) (c : Char) (h : c ∈ stripUnderscores l) : c ∈ l := by
  unfold stripUnderscores at h
  rw [List.mem_reverse] at h
  have h2 := List.dropWhile_subset _ h
  rw [List.mem_reverse] at h2
  exact List.dropWhile_subset _ h2

theorem chain'_strip (l : List Char) (h : List.Chain' Rdd l) :
    List.Chain' Rdd (stripUnderscores l) := by
  unfold stripUnderscores
  have h1 : List.Chain' Rdd (l.dropWhile fun c => c = '_') :=
    List.Chain'.suffix h (List.dropWhile_suffix _)
  have h2 : List.Chain' (flip Rdd) (l.dropWhile fun c => c = '_').reverse :=
    List.chain'_reverse.mpr h1
  have h3 : List.Chain' (flip Rdd)
      (((l.dropWhile fun c => c = '_').reverse).dropWhile fun c => c = '_') :=
    List.Chain'.suffix h2 (List.dropWhile_suffix _)
  exact List.chain'_reverse.mpr h3

theorem head?_strip (l : List Char) : (stripUnderscores l).head? ≠ some '_' := by
  unfold stripUnderscores
  rw [List.head?_reverse]
  rcases he : ((l.dropWhile fun c => c = '_').reverse.dropWhile fun c => c = '_') with _ | ⟨b, bs⟩
  · simp
  · obtain ⟨t, ht⟩ := List.dropWhile_suffix
      (l := (l.dropWhile fun c => c = '_').reverse) (fun c => c = '_')
    rw [he] at ht
    have hlast : (l.dropWhile fun c => c = '_').reverse.getLast? = (b :: bs).getLast? := by
      rw [← ht, List.getLast?_append]
      rcases hbl : (b :: bs).getLast? with _ | x
      · simp at hbl
      · simp
    rw [← hlast, List.getLast?_reverse]
    have hh := List.head?_dropWhile_not (fun c => decide (c = '_')) l
    rcases hhd : (l.dropWhile fun c => c = '_').head? with _ | x
    · simp
    · rw [hhd] at hh
      simp only [decide_eq_false_iff_not] at hh
      simp [hh]

theorem getLast?_strip (l : List Char) : (stripUnderscores l).getLast? ≠ some '_' := by
  unfold stripUnderscores
  rw [List.getLast?_reverse]
  have hh := List.head?_dropWhile_not (fun c => decide (c = '_'))
    (l.dropWhile fun c => c = '_').reverse
  rcases hhd : ((l.dropWhile fun c => c = '_').reverse.dropWhile fun c => c = '_').head? with _ | x
  · simp
  · rw [hhd] at hh
    simp only [decide_eq_false_iff_not] at hh
    simp [hh]

theorem dropWhile_underscore_eq_self (l : List Char) (h : l.head? ≠ some '_') :
    (l.dropWhile fun c => c = '_') = l := by
  cases l with
  | nil => rfl
  | cons a t =>
    rw [List.dropWhile_cons_of_neg]
    simp only [List.head?_cons, ne_eq, Option.some.injEq] at h
    simp [h]

theorem strip_eq_self (l : List Char) (h1 : l.head? ≠ some '_') (h2 : l.getLast? ≠ some '_') :
    stripUnderscores l = l := by
  unfold stripUnderscores
  rw [dropWhile_underscore_eq_self l h1]
  rw [dropWhile_underscore_eq_self l.reverse (by rw [List.head?_reverse]; exact h2)]
  exact List.reverse_reverse l

theorem canonical_sanitizeChars (l : List Char) : canonicalRelType (sanitizeChars l) := by
  refine ⟨?_, ?_, ?_, ?_⟩
  · intro c hc
    unfold sanitizeChars at hc
    have hc1 := mem_of_mem_collapse _ _ (mem_of_mem_strip _ _ hc)
    simp only [List.map_map, List.mem_map] at hc1
    obtain ⟨a, _, ha⟩ := hc1
    exact ha ▸ goodChar_pipeline a
  · exact chain'_strip _ (chain'_collapse _)
  · exact head?_strip _
  · exact getLast?_strip _

theorem sanitizeChars_eq_self (l : List Char) (h : canonicalRelType l) : sanitizeChars l = l := by
  obtain ⟨hg, hchain, hh, hl⟩ := h
  unfold sanitizeChars
  have e1 : l.map upperChar = l := by
    have hp : ∀ a ∈ l, upperChar a = id a := fun a ha => (hg a ha).1
    rw [List.map_congr_left hp, List.map_id]
  have e2 : l.map spaceToUnderscore = l := by
    have hp : ∀ a ∈ l, spaceToUnderscore a = id a := by
      intro a ha
      have h2 := (hg a ha).2
      have hne : a ≠ ' ' := by
        rintro rfl
        rcases h2 with h2 | h2
        · exact absurd h2 (by decide)
        · exact absurd h2 (by decide)
      simp [spaceToUnderscore, hne, id]
    rw [List.map_congr_left hp, List.map_id]
  have e3 : l.map keepAlnumChar = l := by
    have hp : ∀ a ∈ l, keepAlnumChar a = id a := by
      intro a ha
      unfold keepAlnumChar
      rw [if_pos (hg a ha).2]
      rfl
    rw [List.map_congr_left hp, List.map_id]
  rw [e1, e2, e3, collapse_eq_self l hchain, strip_eq_self l hh hl]

theorem sanitize_of_canonical (r : String) (hc : canonicalRelType r.data) (hne : r.data ≠ []) :
    sanitizeRelationshipType r = r := by
  unfold sanitizeRelationshipType
  rw [sanitizeChars_eq_self _ hc, if_neg hne]

/-- C3: the predicate normalizer is total (a total Lean function by
construction), always returns a non-empty string, and is idempotent. -/
theorem claimC3_normalizer_total_idempotent (s : String) :
    sanitizeRelationshipType s ≠ "" ∧
      sanitizeRelationshipType (sanitizeRelationshipType s) = sanitizeRelationshipType s := by
  constructor
  · unfold sanitizeRelationshipType
    by_cases h : sanitizeChars s.data = []
    · rw [if_pos h]; decide
    · rw [if_neg h]
      intro he
      exact h (congrArg String.data he)
  · by_cases h : sanitizeChars s.data = []
    · have hr : sanitizeRelationshipType s = "RELATED_TO" := by
        unfold sanitizeRelationshipType; rw [if_pos h]
      rw [hr]
      have hcan : canonicalRelType (String.data "RELATED_TO") := by
        have hc := canonical_sanitizeChars (String.data "related to")
        have he : sanitizeChars (String.data "related to") = String.data "RELATED_TO" := by
          decide
        rwa [he] at hc
      exact sanitize_of_canonical _ hcan (by decide)
    · have hd : (sanitizeRelationshipType s).data = sanitizeChars s.data := by
        unfold sanitizeRelationshipType; rw [if_neg h]
      apply sanitize_of_canonical
      · rw [hd]; exact canonical_sanitizeChars s.data
      · rw [hd]; exact h

/-- C2 counterexample: the code replaces non-alphanumeric, non-underscore
characters with an underscore; the claimed algorithm strips them, so the two
differ at the input `"A!B"`. -/
theorem claimC2_counterexample :
    sanitizeRelationshipType "A!B" = "A_B" ∧ specNormalize "A!B" = "AB" ∧
      sanitizeRelationshipType "A!B" ≠ specNormalize "A!B" := by
  refine ⟨by decide, by decide, by decide⟩

theorem keepAlnum_space_vs_whitespace (c : Char) :
    keepAlnumChar (spaceToUnderscore c) = keepAlnumChar (if c.isWhitespace then '_' else c) := by
  by_cases hs : c = ' '
  · rw [hs]; decide
  · have hsp : spaceToUnderscore c = c := if_neg hs
    rw [hsp]
    by_cases hw : c.isWhitespace
    · rw [if_pos hw]
      simp only [Char.isWhitespace, Bool.or_eq_true, decide_eq_true_eq] at hw
      rcases hw with ((hw | hw) | hw) | hw
      · exact absurd hw hs
      · rw [hw]; decide
      · rw [hw]; decide
      · rw [hw]; decide
    · rw [if_neg hw]

/-- C2 amended: the normalizer uppercases, maps whitespace to underscore,
replaces (not strips) every character that is not alphanumeric or underscore
with an underscore, collapses runs of underscores, trims leading/trailing
underscores, and falls back to `RELATED_TO` on an empty result; the three
quoted examples hold. -/
theorem claimC2_amended_normalizer_algorithm :
    (∀ s : String, sanitizeRelationshipType s = amendedNormalize s) ∧
      sanitizeRelationshipType "refers to" = "REFERS_TO" ∧
      sanitizeRelationshipType "!!!" = "RELATED_TO" ∧
      sanitizeRelationshipType "A__B" = "A_B" := by
  refine ⟨?_, by decide, by decide, by decide⟩
  intro s
  have hchars : sanitizeChars s.data = amendedNormalizeChars s.data := by
    unfold sanitizeChars amendedNormalizeChars
    rw [List.map_map, List.map_map, List.map_map, List.map_map]
    congr 2
    apply List.map_congr_left
    intro a _
    exact keepAlnum_space_vs_whitespace (upperChar a)
  unfold sanitizeRelationshipType amendedNormalize
  rw [hchars]

/-! ## Dual-store state model

Request/response shapes from `models.py`; one `StoreState` record holds both
stores.  `datetime()` / `NOW()` become a logical clock, `randomUUID()` /
`uuid.uuid4()` a counter; opaque JSON maps become association lists; the
DB-managed `created_at`/`updated_at` columns of `document_blocks` and the
float `processing_time` are not modelled. -/

structure Triple where
  subject : String
  predicate : String
  object : String
  source : String
deriving DecidableEq

structure Block where
  id : String
  raw_text : String
  terms : List String
  metadata : List (String × String)
deriving DecidableEq

structure TripleIngestionRequest where
  triples : List Triple
  blocks : List Block
  document_id : Option String
  metadata : List (String × String)
deriving DecidableEq

structure TripleIngestionResponse where
  document_id : String
  blocks_stored : Nat
  triples_processed : Nat
  nodes_created : Nat
  relationships_created : Nat
deriving DecidableEq

/-- A `:Document` node. `updated_at` is set only by the `ON MATCH` branch. -/
structure DocNode where
  id : String
  metadata : List (String × String)
  created_at : Nat
  updated_at : Option Nat
deriving DecidableEq

/-- An `:Entity` node; all attributes are set only `ON CREATE`. -/
structure EntityNode where
  name : String
  uuid : Nat
  entityType : String
  created_at : Nat
deriving DecidableEq

/-- A typed relationship edge; attributes are set only `ON CREATE`. -/
structure RelEdge where
  subject : String
  relType : String
  object : String
  predicate : String
  source : String
  document_id : String
  created_at : Nat
deriving DecidableEq

/-- A `(:Document)-[:CONTAINS]->(:Entity)` edge. -/
structure ContainsEdge where
  document_id : String
  entity : String
  created_at : Nat
deriving DecidableEq

/-- A row of the `document_blocks` table. -/
structure BlockRow where
  id : String
  document_id : String
  raw_text : String
  terms : List String
  metadata : List (String × String)
deriving DecidableEq

structure StoreState where
  docs : List DocNode
  entities : List EntityNode
  rels : List RelEdge
  contains : List ContainsEdge
  blocks : List BlockRow
  clock : Nat
  uuidCounter : Nat
deriving DecidableEq

def emptyState : StoreState := ⟨[], [], [], [], [], 0, 0⟩

/-! ## Graph store operations (the Cypher statements of `_ingest_triples`) -/

/-- `MERGE (d:Document {id: $id}) ON CREATE SET d.created_at, d.metadata
ON MATCH SET d.updated_at` (services.py 122-133). -/
def mergeDocument (st : StoreState) (docId : String)
    (metadata : List (String × String)) : StoreState :=
  if st.docs.any (fun d => d.id = docId) then
    { st with docs := st.docs.map fun d =>
        if d.id = docId then { d with updated_at := some st.clock } else d }
  else
    { st with docs := st.docs ++ [⟨docId, metadata, st.clock, none⟩] }

/-- `MERGE (s:Entity {name: $name}) ON CREATE SET s.id = randomUUID(),
s.created_at, s.type = 'Generic'` (services.py 140-149, 152-161). -/
def mergeEntity (st : StoreState) (name : String) : StoreState :=
  if st.entities.any (fun e => e.name = name) then st
  else
    { st with
      entities := st.entities ++ [⟨name, st.uuidCounter, "Generic", st.clock⟩],
      uuidCounter := st.uuidCounter + 1 }

/-- `MATCH (s) MATCH (o) MERGE (s)-[r:rel_type]->(o) ON CREATE SET
r.created_at, r.predicate, r.source, r.document_id` (services.py 169-186).
The edge is keyed by (subject, relationship type, object); attributes are set
only when the edge is created. -/
def mergeRelationship (st : StoreState) (subj obj pred src docId : String) : StoreState :=
  let rt := sanitizeRelationshipType pred
  if st.entities.any (fun e => e.name = subj) && st.entities.any (fun e => e.name = obj) then
    if st.rels.any (fun r => r.subject = subj ∧ r.relType = rt ∧ r.object = obj) then st
    else { st with rels := st.rels ++ [⟨subj, rt, obj, pred, src, docId, st.clock⟩] }
  else st

/-- `MATCH (d) MATCH (e) MERGE (d)-[r:CONTAINS]->(e) ON CREATE SET
r.created_at` (services.py 192-212). -/
def mergeContains (st : StoreState) (docId name : String) : StoreState :=
  if st.docs.any (fun d => d.id = docId) && st.entities.any (fun e => e.name = name) then
    if st.contains.any (fun c => c.document_id = docId ∧ c.entity = name) then st
    else { st with contains := st.contains ++ [⟨docId, name, st.clock⟩] }
  else st

/-! ## Ingestion -/

/-- At which of the five graph statements of the per-triple `try` block an
exception is raised, if any (models the `except` path of `_ingest_triples`;
`none` means the triple processes cleanly). -/
abbrev TripleFailure := Triple → Option (Fin 5)

/-- The all-statements-succeed oracle. -/
def noTripleFailure : TripleFailure := fun _ => none

/-- One iteration of the `for triple in triples` loop of `_ingest_triples`
(services.py 137-216): five store statements inside try/except; on failure
the loop logs the triple and continues with the accumulators as they stand.
Accumulator: (state, nodes_created, relationships_created, failure log). -/
def processTriple (fail : TripleFailure) (docId : String)
    (acc : StoreState × Nat × Nat × List Triple) (t : Triple) :
    StoreState × Nat × Nat × List Triple :=
  let (st, nodes, rels, log) := acc
  if fail t = some 0 then (st, nodes, rels, log ++ [t]) else
  let st1 := mergeEntity st t.subject
  if fail t = some 1 then (st1, nodes, rels, log ++ [t]) else
  let st2 := mergeEntity st1 t.object
  let nodes2 := nodes + 2
  if fail t = some 2 then (st2, nodes2, rels, log ++ [t]) else
  let st3 := mergeRelationship st2 t.subject t.object t.predicate t.source docId
  let rels3 := rels + 1
  if fail t = some 3 then (st3, nodes2, rels3, log ++ [t]) else
  let st4 := mergeContains st3 docId t.subject
  if fail t = some 4 then (st4, nodes2, rels3, log ++ [t]) else
  (mergeContains st4 docId t.object, nodes2, rels3, log)

/-- `GraphIngestionService._ingest_triples` (services.py 110-218): merge the
document node (counting it as one created node unconditionally), then run the
per-triple loop. Returns (state, nodes_created, relationships_created, log
of failed triples). -/
def ingestTriples (fail : TripleFailure) (triples : List Triple) (docId : String)
    (metadata : List (String × String)) (st : StoreState) :
    StoreState × Nat × Nat × List Triple :=
  triples.foldl (processTriple fail docId) (mergeDocument st docId metadata, 1, 0, [])

/-- Which block upserts succeed (false models the caught per-block exception
in `_store_blocks`, e.g. an encoding error). -/
abbrev BlockOk := Block → Bool

/-- The all-blocks-succeed oracle. -/
def allBlocksOk : BlockOk := fun _ => true

/-- One `INSERT ... ON CONFLICT (id) DO UPDATE` upsert (services.py 87-103).
On conflict only `raw_text`, `terms`, `metadata` (and the unmodelled
`updated_at`) are rewritten; `document_id` keeps its original value. -/
def upsertBlock (st : StoreState) (docId : String) (b : Block) : StoreState :=
  if st.blocks.any (fun row => row.id = b.id) then
    { st with blocks := st.blocks.map fun row =>
        if row.id = b.id then
          { row with raw_text := b.raw_text, terms := b.terms, metadata := b.metadata }
        else row }
  else
    { st with blocks := st.blocks ++ [⟨b.id, docId, b.raw_text, b.terms, b.metadata⟩] }

/-- `GraphIngestionService._store_blocks` (services.py 59-108): upsert each
block as an independent unit, counting successes; a failed block is logged
and skipped. -/
def storeBlocks (ok : BlockOk) (blocks : List Block) (docId : String) (st : StoreState) :
    StoreState × Nat :=
  blocks.foldl (fun acc b => if ok b then (upsertBlock acc.1 docId b, acc.2 + 1) else acc)
    (st, 0)

/-- `document_id = request.document_id or str(uuid.uuid4())` (services.py 38).
Python `or` falls through on every falsy left operand, i.e. both when
`request.document_id` is `None` and when it is the empty string: in both
cases a fresh UUID is generated (drawn here from the uuid counter). -/
def resolveDocumentId (st : StoreState) : Option String → String × StoreState
  | some d =>
    if d = "" then
      ("uuid-" ++ toString st.uuidCounter, { st with uuidCounter := st.uuidCounter + 1 })
    else (d, st)
  | none =>
    ("uuid-" ++ toString st.uuidCounter, { st with uuidCounter := st.uuidCounter + 1 })

/-- `GraphIngestionService.ingest_triples_and_blocks` (services.py 25-57).
The document id is resolved first (a fresh UUID when the supplied one is
falsy); blocks are stored next, then triples are ingested; the logical clock
ticks once at the end of the call. -/
def ingestTriplesAndBlocks (ok : BlockOk) (fail : TripleFailure)
    (req : TripleIngestionRequest) (st : StoreState) :
    StoreState × TripleIngestionResponse :=
  let resolved := resolveDocumentId st req.document_id
  let docId := resolved.1
  let afterBlocks := storeBlocks ok req.blocks docId resolved.2
  let afterTriples := ingestTriples fail req.triples docId req.metadata afterBlocks.1
  ({ afterTriples.1 with clock := afterTriples.1.clock + 1 },
   ⟨docId, afterBlocks.2, req.triples.length, afterTriples.2.1, afterTriples.2.2.1⟩)

/-! ## Queries and deletion -/

/-- A graph node as matched by an unlabeled Cypher pattern node. -/
inductive GNode where
  | doc : String → GNode
  | ent : String → GNode
deriving DecidableEq

/-- A relationship as matched by an untyped pattern: the typed entity-entity
edges together with the `CONTAINS` edges. -/
inductive GEdge where
  | rel : RelEdge → GEdge
  | con : ContainsEdge → GEdge
deriving DecidableEq

def GEdge.ends : GEdge → GNode × GNode
  | .rel r => (.ent r.subject, .ent r.object)
  | .con c => (.doc c.document_id, .ent c.entity)

/-- The projection `{type: type(rel), predicate: rel.predicate, source:
rel.source}` built by `query_graph_by_entity` for each path relationship. -/
structure RelInfo where
  relTypeName : String
  predicate : Option String
  source : Option String
deriving DecidableEq

def GEdge.info : GEdge → RelInfo
  | .rel r => ⟨r.relType, some r.predicate, some r.source⟩
  | .con _ => ⟨"CONTAINS", none, none⟩

def allEdges (st : StoreState) : List GEdge :=
  st.rels.map GEdge.rel ++ st.contains.map GEdge.con

/-- Endpoints reachable from `n` over edge `e`, in either direction
(the pattern `-[r*1..depth]-` is undirected). -/
def GEdge.stepFrom (e : GEdge) (n : GNode) : List GNode :=
  (if e.ends.1 = n then [e.ends.2] else []) ++ (if e.ends.2 = n then [e.ends.1] else [])

/-- All paths of 1 to `fuel` hops out of `n`, as (edge-index list, reached
node); a path never repeats a relationship, matching Cypher variable-length
path semantics. Edges are identified by their index in `edges`. -/
def pathsFrom (edges : List GEdge) (used : List Nat) (n : GNode) :
    Nat → List (List Nat × GNode)
  | 0 => []
  | fuel + 1 =>
    edges.enum.flatMap fun p =>
      if p.1 ∈ used then []
      else
        (p.2.stepFrom n).flatMap fun m =>
          ([p.1], m) :: (pathsFrom edges (p.1 :: used) m fuel).map fun q => (p.1 :: q.1, q.2)

/-- The aggregated record returned by `query_graph_by_entity`. -/
structure EntityQueryRecord where
  entity : EntityNode
  related_entities : List GNode
  relationships : List RelInfo
deriving DecidableEq

/-- `GraphIngestionService.query_graph_by_entity` (services.py 291-322):
match `(e:Entity {name})-[r*1..depth]-(related)`, aggregate `related` per
distinct relationship projection, and take the first aggregated row
(`result.single()`); no row at all yields the empty result (`none`).  The
`LIMIT 100` in the source truncates the aggregated rows and cannot affect
which row `single()` picks, so it is not modelled. -/
def queryGraphByEntity (st : StoreState) (name : String) (depth : Nat) :
    Option EntityQueryRecord :=
  match st.entities.find? (fun e => e.name = name) with
  | none => none
  | some e =>
    let edges := allEdges st
    let ps := pathsFrom edges [] (GNode.ent name) depth
    let rows := ps.map fun p =>
      (p.1.filterMap fun i => (edges.get? i).map GEdge.info, p.2)
    match rows.head? with
    | none => none
    | some row =>
      some ⟨e, ((rows.filter (fun r => r.1 = row.1)).map Prod.snd).dedup, row.1⟩

structure PredicateSearchRecord where
  subject : String
  predicate : String
  object : String
  source : String
deriving DecidableEq

/-- `GraphIngestionService.search_by_predicate` (services.py 359-388):
normalize the query predicate, match `(s:Entity)-[r:rel_type]->(o:Entity)`,
return up to `limit` records carrying the stored original `r.predicate`. -/
def searchByPredicate (st : StoreState) (pred : String) (limit : Nat) :
    List PredicateSearchRecord :=
  let rt := sanitizeRelationshipType pred
  ((st.rels.filter fun r =>
      r.relType = rt ∧ st.entities.any (fun e => e.name = r.subject) ∧
        st.entities.any (fun e => e.name = r.object)).take limit).map
    fun r => ⟨r.subject, r.predicate, r.object, r.source⟩

/-- The doom test of the deletion Cypher (services.py 396-407): entity `name`
is contained by the target document and `NOT EXISTS` a containment edge from
another existing document. -/
def doomed (st : StoreState) (docId name : String) : Bool :=
  st.contains.any (fun c => c.document_id = docId ∧ c.entity = name) &&
    !st.contains.any (fun c => c.entity = name ∧ c.document_id ≠ docId ∧
        st.docs.any (fun d => d.id = c.document_id))

/-- `GraphIngestionService.delete_document` (services.py 390-416): if the
document node exists, `DETACH DELETE` it together with every doomed entity it
contains (removing all their incident edges); then delete the document's
block rows. -/
def deleteDocument (st : StoreState) (docId : String) : StoreState :=
  let st1 :=
    if st.docs.any (fun d => d.id = docId) then
      { st with
        docs := st.docs.filter fun d => d.id ≠ docId,
        entities := st.entities.filter fun e => ¬ doomed st docId e.name,
        rels := st.rels.filter fun r => ¬ doomed st docId r.subject ∧ ¬ doomed st docId r.object,
        contains := st.contains.filter fun c =>
          c.document_id ≠ docId ∧ ¬ doomed st docId c.entity }
    else st
  { st1 with blocks := st1.blocks.filter fun b => b.document_id ≠ docId }

/-! ## Route layer (routes.py) -/

inductive RouteOutcome (α : Type) where
  | ok : α → RouteOutcome α
  | validationError : RouteOutcome α
  | notFound : RouteOutcome α
deriving DecidableEq

/-- Route `GET /graph/query/entity/...` (routes.py 121-150).  FastAPI applies
`depth: int = Query(2, ge=1, le=5)` before the handler body runs, so an
out-of-range depth is rejected with a validation error and no store call; the
second component counts graph-store queries issued. An empty service result
becomes HTTP 404. -/
def queryByEntityRoute (st : StoreState) (name : String) (depth : Int) :
    RouteOutcome EntityQueryRecord × Nat :=
  if depth < 1 ∨ 5 < depth then (.validationError, 0)
  else
    match queryGraphByEntity st name depth.toNat with
    | none => (.notFound, 1)
    | some r => (.ok r, 1)

/-- Route `GET /graph/query/predicate/...` (routes.py 153-175), with
`limit: int = Query(50, ge=1, le=500)` validated before the handler body. -/
def searchByPredicateRoute (st : StoreState) (pred : String) (limit : Int) :
    RouteOutcome (List PredicateSearchRecord) × Nat :=
  if limit < 1 ∨ 500 < limit then (.validationError, 0)
  else (.ok (searchByPredicate st pred limit.toNat), 1)

/-! ## Frame and monotonicity lemmas for the graph operations -/

/-- Key presence predicates mirroring the `MERGE` match conditions. -/
def entPresent (st : StoreState) (n : String) : Prop :=
  st.entities.any (fun e => e.name = n) = true

def relPresent (st : StoreState) (s rt o : String) : Prop :=
  st.rels.any (fun r => r.subject = s ∧ r.relType = rt ∧ r.object = o) = true

def conPresent (st : StoreState) (d n : String) : Prop :=
  st.contains.any (fun c => c.document_id = d ∧ c.entity = n) = true

def docPresent (st : StoreState) (d : String) : Prop :=
  st.docs.any (fun x => x.id = d) = true

instance (st : StoreState) (d : String) : Decidable (docPresent st d) :=
  inferInstanceAs (Decidable (_ = true))

/-- What one graph statement can do to the state: leave blocks and clock
alone, append entities/relationships/containments (new relationship edges
never duplicating an existing key), and preserve document ids. -/
structure GraphStep (st st' : StoreState) : Prop where
  blocks_eq : st'.blocks = st.blocks
  clock_eq : st'.clock = st.clock
  ents_ext : ∃ a, st'.entities = st.entities ++ a
  rels_ext : ∃ a, st'.rels = st.rels ++ a ∧ ∀ x ∈ a, ∀ r ∈ st.rels,
    ¬(x.subject = r.subject ∧ x.relType = r.relType ∧ x.object = r.object)
  cons_ext : ∃ a, st'.contains = st.contains ++ a
  doc_ids : ∀ d, st.docs.any (fun x => x.id = d) = true →
    st'.docs.any (fun x => x.id = d) = true

theorem GraphStep.refl (st : StoreState) : GraphStep st st :=
  ⟨rfl, rfl, ⟨[], by simp⟩, ⟨[], by simp, fun x hx => absurd hx (List.not_mem_nil x)⟩,
    ⟨[], by simp⟩, fun _ h => h⟩

theorem GraphStep.trans {s1 s2 s3 : StoreState} (h12 : GraphStep s1 s2)
    (h23 : GraphStep s2 s3) : GraphStep s1 s3 := by
  obtain ⟨b12, c12, ⟨e1, he1⟩, ⟨r1, hr1, hn1⟩, ⟨x1, hx1⟩, d12⟩ := h12
  obtain ⟨b23, c23, ⟨e2, he2⟩, ⟨r2, hr2, hn2⟩, ⟨x2, hx2⟩, d23⟩ := h23
  refine ⟨b23.trans b12, c23.trans c12,
    ⟨e1 ++ e2, by rw [he2, he1, List.append_assoc]⟩,
    ⟨r1 ++ r2, by rw [hr2, hr1, List.append_assoc], ?_⟩,
    ⟨x1 ++ x2, by rw [hx2, hx1, List.append_assoc]⟩,
    fun d h => d23 d (d12 d h)⟩
  intro x hx r hr
  rcases List.mem_append.mp hx with hx | hx
  · exact hn1 x hx r hr
  · exact hn2 x hx r (by rw [hr1]; exact List.mem_append_left _ hr)

theorem graphStep_mergeEntity (st : StoreState) (n : String) :
    GraphStep st (mergeEntity st n) := by
  unfold mergeEntity
  split
  · exact GraphStep.refl st
  · exact ⟨rfl, rfl, ⟨_, rfl⟩,
      ⟨[], by simp, fun x hx => absurd hx (List.not_mem_nil x)⟩, ⟨[], by simp⟩, fun _ h => h⟩

theorem graphStep_mergeRelationship (st : StoreState) (s o p src dId : String) :
    GraphStep st (mergeRelationship st s o p src dId) := by
  unfold mergeRelationship
  dsimp only
  split
  · split
    · exact GraphStep.refl st
    · rename_i hnone
      refine ⟨rfl, rfl, ⟨[], by simp⟩, ⟨_, rfl, ?_⟩, ⟨[], by simp⟩, fun _ h => h⟩
      intro x hx r hr
      simp only [List.mem_singleton] at hx
      subst hx
      intro hmatch
      apply hnone
      refine List.any_eq_true.mpr ⟨r, hr, ?_⟩
      simp only [decide_eq_true_eq]
      exact ⟨hmatch.1.symm, hmatch.2.1.symm, hmatch.2.2.symm⟩
  · exact GraphStep.refl st

theorem graphStep_mergeContains (st : StoreState) (dId n : String) :
    GraphStep st (mergeContains st dId n) := by
  unfold mergeContains
  split
  · split
    · exact GraphStep.refl st
    · exact ⟨rfl, rfl, ⟨[], by simp⟩,
        ⟨[], by simp, fun x hx => absurd hx (List.not_mem_nil x)⟩, ⟨_, rfl⟩, fun _ h => h⟩
  · exact GraphStep.refl st

theorem graphStep_mergeDocument (st : StoreState) (dId : String)
    (m : List (String × String)) : GraphStep st (mergeDocument st dId m) := by
  unfold mergeDocument
  split
  · refine ⟨rfl, rfl, ⟨[], by simp⟩,
      ⟨[], by simp, fun x hx => absurd hx (List.not_mem_nil x)⟩, ⟨[], by simp⟩, ?_⟩
    intro d h
    rw [List.any_map]
    have hfun : ((fun x : DocNode => decide (x.id = d)) ∘
        (fun x : DocNode => if x.id = dId then { x with updated_at := some st.clock } else x)) =
        fun x : DocNode => decide (x.id = d) := by
      funext x
      by_cases hx : x.id = dId
      · simp [hx]
      · simp [hx]
    rw [hfun]
    exact h
  · refine ⟨rfl, rfl, ⟨[], by simp⟩,
      ⟨[], by simp, fun x hx => absurd hx (List.not_mem_nil x)⟩, ⟨[], by simp⟩, ?_⟩
    intro d h
    rw [List.any_append, h]
    rfl

/-! ### Reduced forms of `processTriple` by failure point -/

theorem processTriple_none {fail : TripleFailure} {t : Triple} (h : fail t = none)
    (dId : String) (st : StoreState) (n r : Nat) (log : List Triple) :
    processTriple fail dId (st, n, r, log) t =
      (mergeContains (mergeContains (mergeRelationship (mergeEntity (mergeEntity st t.subject)
          t.object) t.subject t.object t.predicate t.source dId) dId t.subject) dId t.object,
        n + 2, r + 1, log) := by
  simp [processTriple, h]

theorem processTriple_fail0 {fail : TripleFailure} {t : Triple} (h : fail t = some 0)
    (dId : String) (st : StoreState) (n r : Nat) (log : List Triple) :
    processTriple fail dId (st, n, r, log) t = (st, n, r, log ++ [t]) := by
  simp [processTriple, h]

theorem processTriple_fail1 {fail : TripleFailure} {t : Triple} (h : fail t = some 1)
    (dId : String) (st : StoreState) (n r : Nat) (log : List Triple) :
    processTriple fail dId (st, n, r, log) t = (mergeEntity st t.subject, n, r, log ++ [t]) := by
  simp [processTriple, h]

theorem processTriple_fail2 {fail : TripleFailure} {t : Triple} (h : fail t = some 2)
    (dId : String) (st : StoreState) (n r : Nat) (log : List Triple) :
    processTriple fail dId (st, n, r, log) t =
      (mergeEntity (mergeEntity st t.subject) t.object, n + 2, r, log ++ [t]) := by
  simp [processTriple, h]

theorem processTriple_fail3 {fail : TripleFailure} {t : Triple} (h : fail t = some 3)
    (dId : String) (st : StoreState) (n r : Nat) (log : List Triple) :
    processTriple fail dId (st, n, r, log) t =
      (mergeRelationship (mergeEntity (mergeEntity st t.subject) t.object)
          t.subject t.object t.predicate t.source dId, n + 2, r + 1, log ++ [t]) := by
  simp [processTriple, h]

theorem processTriple_fail4 {fail : TripleFailure} {t : Triple} (h : fail t = some 4)
    (dId : String) (st : StoreState) (n r : Nat) (log : List Triple) :
    processTriple fail dId (st, n, r, log) t =
      (mergeContains (mergeRelationship (mergeEntity (mergeEntity st t.subject) t.object)
          t.subject t.object t.predicate t.source dId) dId t.subject,
        n + 2, r + 1, log ++ [t]) := by
  simp [processTriple, h]

theorem graphStep_processTriple (fail : TripleFailure) (dId : String)
    (acc : StoreState × Nat × Nat × List Triple) (t : Triple) :
    GraphStep acc.1 (processTriple fail dId acc t).1 := by
  obtain ⟨st, n, r, log⟩ := acc
  rcases hft : fail t with _ | k
  · rw [processTriple_none hft]
    exact ((((graphStep_mergeEntity st t.subject).trans
      (graphStep_mergeEntity _ t.object)).trans
      (graphStep_mergeRelationship _ t.subject t.object t.predicate t.source dId)).trans
      (graphStep_mergeContains _ dId t.subject)).trans
      (graphStep_mergeContains _ dId t.object)
  · fin_cases k
    · rw [processTriple_fail0 hft]
      exact GraphStep.refl st
    · rw [processTriple_fail1 hft]
      exact graphStep_mergeEntity st t.subject
    · rw [processTriple_fail2 hft]
      exact (graphStep_mergeEntity st t.subject).trans (graphStep_mergeEntity _ t.object)
    · rw [processTriple_fail3 hft]
      exact ((graphStep_mergeEntity st t.subject).trans
        (graphStep_mergeEntity _ t.object)).trans
        (graphStep_mergeRelationship _ t.subject t.object t.predicate t.source dId)
    · rw [processTriple_fail4 hft]
      exact (((graphStep_mergeEntity st t.subject).trans
        (graphStep_mergeEntity _ t.object)).trans
        (graphStep_mergeRelationship _ t.subject t.object t.predicate t.source dId)).trans
        (graphStep_mergeContains _ dId t.subject)

theorem graphStep_foldTriples (fail : TripleFailure) (dId : String) :
    ∀ (ts : List Triple) (acc : StoreState × Nat × Nat × List Triple),
      GraphStep acc.1 (ts.foldl (processTriple fail dId) acc).1
  | [], _ => GraphStep.refl _
  | t :: ts, acc => by
    rw [List.foldl_cons]
    exact (graphStep_processTriple fail dId acc t).trans
      (graphStep_foldTriples fail dId ts (processTriple fail dId acc t))

theorem graphStep_ingestTriples (fail : TripleFailure) (ts : List Triple) (dId : String)
    (m : List (String × String)) (st : StoreState) :
    GraphStep st (ingestTriples fail ts dId m st).1 := by
  unfold ingestTriples
  exact (graphStep_mergeDocument st dId m).trans
    (graphStep_foldTriples fail dId ts (mergeDocument st dId m, 1, 0, []))

theorem entPresent_mono {st st' : StoreState} (h : GraphStep st st') (n : String)
    (hp : entPresent st n) : entPresent st' n := by
  obtain ⟨a, ha⟩ := h.ents_ext
  unfold entPresent at hp ⊢
  rw [ha, List.any_append, hp]
  rfl

theorem relPresent_mono {st st' : StoreState} (h : GraphStep st st') (s rt o : String)
    (hp : relPresent st s rt o) : relPresent st' s rt o := by
  obtain ⟨a, ha, _⟩ := h.rels_ext
  unfold relPresent at hp ⊢
  rw [ha, List.any_append, hp]
  rfl

theorem conPresent_mono {st st' : StoreState} (h : GraphStep st st') (d n : String)
    (hp : conPresent st d n) : conPresent st' d n := by
  obtain ⟨a, ha⟩ := h.cons_ext
  unfold conPresent at hp ⊢
  rw [ha, List.any_append, hp]
  rfl

theorem docPresent_mono {st st' : StoreState} (h : GraphStep st st') (d : String)
    (hp : docPresent st d) : docPresent st' d := h.doc_ids d hp

theorem mergeEntity_establishes (st : StoreState) (n : String) :
    entPresent (mergeEntity st n) n := by
  unfold mergeEntity
  split
  · rename_i h
    exact h
  · unfold entPresent
    simp [List.any_append]

theorem mergeRelationship_establishes (st : StoreState) (s o p src dId : String)
    (hs : entPresent st s) (ho : entPresent st o) :
    relPresent (mergeRelationship st s o p src dId) s (sanitizeRelationshipType p) o := by
  unfold mergeRelationship
  dsimp only
  rw [if_pos (Bool.and_eq_true_iff.mpr ⟨hs, ho⟩)]
  split
  · rename_i h
    exact h
  · unfold relPresent
    simp [List.any_append]

theorem mergeContains_establishes (st : StoreState) (dId n : String)
    (hd : docPresent st dId) (he : entPresent st n) :
    conPresent (mergeContains st dId n) dId n := by
  unfold mergeContains
  rw [if_pos (Bool.and_eq_true_iff.mpr ⟨hd, he⟩)]
  split
  · rename_i h
    exact h
  · unfold conPresent
    simp [List.any_append]

theorem any_docId_map_update (l : List DocNode) (dId d : String) (c : Nat) :
    ((l.map fun x => if x.id = dId then { x with updated_at := some c } else x).any
      fun x => x.id = d) = l.any fun x => x.id = d := by
  rw [List.any_map]
  congr 1
  funext x
  by_cases hx : x.id = dId
  · simp [hx]
  · simp [hx]

theorem mergeDocument_establishes (st : StoreState) (dId : String)
    (m : List (String × String)) : docPresent (mergeDocument st dId m) dId := by
  unfold mergeDocument
  split
  · rename_i h
    unfold docPresent
    rw [any_docId_map_update]
    exact h
  · unfold docPresent
    simp [List.any_append]

theorem mergeEntity_of_present {st : StoreState} {n : String} (h : entPresent st n) :
    mergeEntity st n = st := by
  unfold mergeEntity
  exact if_pos h

theorem mergeRelationship_of_present {st : StoreState} {s o p src dId : String}
    (h : relPresent st s (sanitizeRelationshipType p) o) :
    mergeRelationship st s o p src dId = st := by
  unfold mergeRelationship
  dsimp only
  split
  · exact if_pos h
  · rfl

theorem mergeContains_of_present {st : StoreState} {dId n : String}
    (h : conPresent st dId n) : mergeContains st dId n = st := by
  unfold mergeContains
  split
  · exact if_pos h
  · rfl

/-- All five merge keys of a triple are present, so replaying it is a no-op
on the state. -/
def tripleKeys (st : StoreState) (dId : String) (t : Triple) : Prop :=
  entPresent st t.subject ∧ entPresent st t.object ∧
    relPresent st t.subject (sanitizeRelationshipType t.predicate) t.object ∧
    conPresent st dId t.subject ∧ conPresent st dId t.object

theorem tripleKeys_mono {st st' : StoreState} (h : GraphStep st st') {dId : String}
    {t : Triple} (hk : tripleKeys st dId t) : tripleKeys st' dId t :=
  ⟨entPresent_mono h _ hk.1, entPresent_mono h _ hk.2.1,
   relPresent_mono h _ _ _ hk.2.2.1, conPresent_mono h _ _ hk.2.2.2.1,
   conPresent_mono h _ _ hk.2.2.2.2⟩

theorem processTriple_establishes {fail : TripleFailure} {t : Triple} (hft : fail t = none)
    (dId : String) (st : StoreState) (n r : Nat) (log : List Triple)
    (hd : docPresent st dId) :
    tripleKeys (processTriple fail dId (st, n, r, log) t).1 dId t := by
  rw [processTriple_none hft]
  have g1 := graphStep_mergeEntity st t.subject
  have e1 := mergeEntity_establishes st t.subject
  have g2 := graphStep_mergeEntity (mergeEntity st t.subject) t.object
  have e2 := mergeEntity_establishes (mergeEntity st t.subject) t.object
  have e1b := entPresent_mono g2 _ e1
  have g3 := graphStep_mergeRelationship (mergeEntity (mergeEntity st t.subject) t.object)
    t.subject t.object t.predicate t.source dId
  have r3 := mergeRelationship_establishes _ t.subject t.object t.predicate t.source dId e1b e2
  have e1c := entPresent_mono g3 _ e1b
  have e2c := entPresent_mono g3 _ e2
  have hd3 := docPresent_mono ((g1.trans g2).trans g3) dId hd
  have g4 := graphStep_mergeContains (mergeRelationship (mergeEntity (mergeEntity st t.subject)
    t.object) t.subject t.object t.predicate t.source dId) dId t.subject
  have c4 := mergeContains_establishes _ dId t.subject hd3 e1c
  have g5 := graphStep_mergeContains (mergeContains (mergeRelationship
    (mergeEntity (mergeEntity st t.subject) t.object) t.subject t.object t.predicate
    t.source dId) dId t.subject) dId t.object
  have c5 := mergeContains_establishes _ dId t.object (docPresent_mono g4 dId hd3)
    (entPresent_mono g4 _ e2c)
  exact ⟨entPresent_mono (g4.trans g5) _ e1c, entPresent_mono (g4.trans g5) _ e2c,
    relPresent_mono (g4.trans g5) _ _ _ r3, conPresent_mono g5 _ _ c4, c5⟩

theorem processTriple_id {fail : TripleFailure} {t : Triple} (hft : fail t = none)
    {dId : String} {st : StoreState} (hk : tripleKeys st dId t) (n r : Nat)
    (log : List Triple) :
    processTriple fail dId (st, n, r, log) t = (st, n + 2, r + 1, log) := by
  rw [processTriple_none hft, mergeEntity_of_present hk.1, mergeEntity_of_present hk.2.1,
    mergeRelationship_of_present hk.2.2.1, mergeContains_of_present hk.2.2.2.1,
    mergeContains_of_present hk.2.2.2.2]

theorem foldTriples_establishes {fail : TripleFailure} (hfail : ∀ t, fail t = none)
    (dId : String) :
    ∀ (ts : List Triple) (acc : StoreState × Nat × Nat × List Triple),
      docPresent acc.1 dId →
      ∀ t ∈ ts, tripleKeys (ts.foldl (processTriple fail dId) acc).1 dId t
  | [], _, _, t, ht => absurd ht (List.not_mem_nil t)
  | t0 :: ts, acc, hd, t, ht => by
    rw [List.foldl_cons]
    rcases List.mem_cons.mp ht with rfl | ht
    · have hk0 : tripleKeys (processTriple fail dId acc t).1 dId t := by
        obtain ⟨st, n, r, log⟩ := acc
        exact processTriple_establishes (hfail t) dId st n r log hd
      exact tripleKeys_mono (graphStep_foldTriples fail dId ts _) hk0
    · exact foldTriples_establishes hfail dId ts (processTriple fail dId acc t0)
        (docPresent_mono (graphStep_processTriple fail dId acc t0) dId hd) t ht

theorem foldTriples_id {fail : TripleFailure} (hfail : ∀ t, fail t = none) (dId : String) :
    ∀ (ts : List Triple) (st : StoreState) (n r : Nat) (log : List Triple),
      (∀ t ∈ ts, tripleKeys st dId t) →
      ts.foldl (processTriple fail dId) (st, n, r, log) =
        (st, n + 2 * ts.length, r + ts.length, log)
  | [], st, n, r, log, _ => by simp
  | t :: ts, st, n, r, log, hk => by
    rw [List.foldl_cons, processTriple_id (hfail t) (hk t (List.mem_cons_self t ts)) n r log,
      foldTriples_id hfail dId ts st (n + 2) (r + 1) log
        (fun u hu => hk u (List.mem_cons_of_mem t hu))]
    have h1 : n + 2 + 2 * ts.length = n + 2 * (ts.length + 1) := by omega
    have h2 : r + 1 + ts.length = r + (ts.length + 1) := by omega
    rw [List.length_cons, h1, h2]

theorem ingestTriples_establishes {fail : TripleFailure} (hfail : ∀ t, fail t = none)
    (ts : List Triple) (dId : String) (m : List (String × String)) (st : StoreState) :
    ∀ t ∈ ts, tripleKeys (ingestTriples fail ts dId m st).1 dId t := by
  unfold ingestTriples
  intro t ht
  exact foldTriples_establishes hfail dId ts (mergeDocument st dId m, 1, 0, [])
    (mergeDocument_establishes st dId m) t ht

theorem ingestTriples_id {fail : TripleFailure} (hfail : ∀ t, fail t = none)
    (ts : List Triple) (dId : String) (m : List (String × String)) (st : StoreState)
    (hk : ∀ t ∈ ts, tripleKeys st dId t) :
    ingestTriples fail ts dId m st =
      (mergeDocument st dId m, 1 + 2 * ts.length, 0 + ts.length, []) := by
  unfold ingestTriples
  rw [foldTriples_id hfail dId ts (mergeDocument st dId m) 1 0 []
    (fun t ht => tripleKeys_mono (graphStep_mergeDocument st dId m) (hk t ht))]

theorem mergeDocument_frame (st : StoreState) (dId : String) (m : List (String × String)) :
    (mergeDocument st dId m).entities = st.entities ∧
      (mergeDocument st dId m).rels = st.rels ∧
      (mergeDocument st dId m).contains = st.contains ∧
      (mergeDocument st dId m).blocks = st.blocks := by
  unfold mergeDocument
  split
  · exact ⟨rfl, rfl, rfl, rfl⟩
  · exact ⟨rfl, rfl, rfl, rfl⟩

/-! ### Block-store lemmas -/

/-- Replace the relational table, keeping the graph store as is. -/
def setBlocks (st : StoreState) (nb : List BlockRow) : StoreState :=
  { st with blocks := nb }

/-- The row(s) for a block's id already carry exactly that block's content,
so replaying its upsert is a no-op. -/
def blockSettled (st : StoreState) (b : Block) : Prop :=
  st.blocks.any (fun row => row.id = b.id) = true ∧
    ∀ row ∈ st.blocks, row.id = b.id →
      row.raw_text = b.raw_text ∧ row.terms = b.terms ∧ row.metadata = b.metadata

theorem upsertBlock_frame (st : StoreState) (d : String) (b : Block) :
    ∃ nb, upsertBlock st d b = setBlocks st nb := by
  unfold upsertBlock
  split
  · exact ⟨_, rfl⟩
  · exact ⟨_, rfl⟩

theorem upsertBlock_of_settled {st : StoreState} {b : Block} (h : blockSettled st b)
    (d : String) : upsertBlock st d b = st := by
  unfold upsertBlock
  rw [if_pos h.1]
  have hmap : (st.blocks.map fun row => if row.id = b.id then
      { row with raw_text := b.raw_text, terms := b.terms, metadata := b.metadata }
      else row) = st.blocks := by
    have hp : ∀ row ∈ st.blocks, (if row.id = b.id then
        { row with raw_text := b.raw_text, terms := b.terms, metadata := b.metadata }
        else row) = id row := by
      intro row hrow
      by_cases hid : row.id = b.id
      · obtain ⟨h1, h2, h3⟩ := h.2 row hrow hid
        rw [if_pos hid, ← h1, ← h2, ← h3]
        rfl
      · rw [if_neg hid]
        rfl
    rw [List.map_congr_left hp, List.map_id]
  rw [hmap]

theorem upsertBlock_establishes (st : StoreState) (d : String) (b : Block) :
    blockSettled (upsertBlock st d b) b := by
  unfold upsertBlock blockSettled
  split
  · rename_i hany
    constructor
    · rw [List.any_map]
      have hfun : ((fun row : BlockRow => decide (row.id = b.id)) ∘ fun row =>
          if row.id = b.id then
            { row with raw_text := b.raw_text, terms := b.terms, metadata := b.metadata }
          else row) = fun row : BlockRow => decide (row.id = b.id) := by
        funext row
        by_cases hid : row.id = b.id
        · simp [hid]
        · simp [hid]
      rw [hfun]
      exact hany
    · intro row hrow hid
      rw [List.mem_map] at hrow
      obtain ⟨src, _, hmap⟩ := hrow
      by_cases hsid : src.id = b.id
      · rw [if_pos hsid] at hmap
        rw [← hmap]
        exact ⟨rfl, rfl, rfl⟩
      · rw [if_neg hsid] at hmap
        exact absurd (hmap ▸ hid) hsid
  · rename_i hany
    constructor
    · simp [List.any_append]
    · intro row hrow hid
      rcases List.mem_append.mp hrow with hrow | hrow
      · exact absurd (List.any_eq_true.mpr ⟨row, hrow, by simp [hid]⟩) hany
      · simp only [List.mem_singleton] at hrow
        rw [hrow]
        exact ⟨rfl, rfl, rfl⟩

theorem upsertBlock_preserves_settled {st : StoreState} {b : Block} (h : blockSettled st b)
    (d : String) {b2 : Block} (hne : b2.id ≠ b.id) :
    blockSettled (upsertBlock st d b2) b := by
  unfold upsertBlock
  split
  · constructor
    · rw [List.any_map]
      have hfun : ((fun row : BlockRow => decide (row.id = b.id)) ∘ fun row =>
          if row.id = b2.id then
            { row with raw_text := b2.raw_text, terms := b2.terms, metadata := b2.metadata }
          else row) = fun row : BlockRow => decide (row.id = b.id) := by
        funext row
        by_cases hid : row.id = b2.id
        · simp [hid]
        · simp [hid]
      rw [hfun]
      exact h.1
    · intro row hrow hid
      rw [List.mem_map] at hrow
      obtain ⟨src, hsrc, hmap⟩ := hrow
      by_cases hsid : src.id = b2.id
      · exfalso
        apply hne
        rw [if_pos hsid] at hmap
        calc b2.id = src.id := hsid.symm
          _ = row.id := by rw [← hmap]
          _ = b.id := hid
      · rw [if_neg hsid] at hmap
        subst hmap
        exact h.2 src hsrc hid
  · constructor
    · rw [List.any_append, h.1]
      rfl
    · intro row hrow hid
      rcases List.mem_append.mp hrow with hrow | hrow
      · exact h.2 row hrow hid
      · simp only [List.mem_singleton] at hrow
        subst hrow
        exact absurd hid hne

theorem foldBlocks_preserves_settled (ok : BlockOk) (d : String) :
    ∀ (L : List Block) (st : StoreState) (c : Nat) {b : Block},
      (∀ x ∈ L, x.id ≠ b.id) → blockSettled st b →
      blockSettled (L.foldl (fun acc x =>
        if ok x then (upsertBlock acc.1 d x, acc.2 + 1) else acc) (st, c)).1 b
  | [], _, _, _, _, hs => hs
  | x :: L, st, c, b, hne, hs => by
    rw [List.foldl_cons]
    by_cases hok : ok x = true
    · rw [if_pos hok]
      exact foldBlocks_preserves_settled ok d L _ _
        (fun y hy => hne y (List.mem_cons_of_mem x hy))
        (upsertBlock_preserves_settled hs d (hne x (List.mem_cons_self x L)))
    · rw [if_neg hok]
      exact foldBlocks_preserves_settled ok d L _ _
        (fun y hy => hne y (List.mem_cons_of_mem x hy)) hs

theorem foldBlocks_settles (d : String) :
    ∀ (L : List Block) (st : StoreState) (c : Nat),
      L.Pairwise (fun a b => a.id ≠ b.id) →
      ∀ b ∈ L, blockSettled (L.foldl (fun acc x =>
        if allBlocksOk x then (upsertBlock acc.1 d x, acc.2 + 1) else acc) (st, c)).1 b
  | [], _, _, _, b, hb => absurd hb (List.not_mem_nil b)
  | x :: L, st, c, hp, b, hb => by
    rw [List.foldl_cons, if_pos (show allBlocksOk x = true from rfl)]
    rw [List.pairwise_cons] at hp
    rcases List.mem_cons.mp hb with rfl | hb
    · exact foldBlocks_preserves_settled allBlocksOk d L _ _
        (fun y hy => (hp.1 y hy).symm) (upsertBlock_establishes st d b)
    · exact foldBlocks_settles d L _ _ hp.2 b hb

theorem foldBlocks_of_settled (d : String) :
    ∀ (L : List Block) (st : StoreState) (c : Nat),
      (∀ b ∈ L, blockSettled st b) →
      L.foldl (fun acc x => if allBlocksOk x then (upsertBlock acc.1 d x, acc.2 + 1) else acc)
        (st, c) = (st, c + L.length)
  | [], _, _, _ => by simp
  | b :: L, st, c, hs => by
    rw [List.foldl_cons, if_pos (show allBlocksOk b = true from rfl),
      upsertBlock_of_settled (hs b (List.mem_cons_self b L)) d,
      foldBlocks_of_settled d L st (c + 1) (fun x hx => hs x (List.mem_cons_of_mem b hx)),
      List.length_cons]
    rw [show c + 1 + L.length = c + (L.length + 1) by omega]

theorem foldBlocks_count (ok : BlockOk) (d : String) :
    ∀ (L : List Block) (acc : StoreState × Nat),
      (L.foldl (fun a b => if ok b then (upsertBlock a.1 d b, a.2 + 1) else a) acc).2 =
        acc.2 + (L.filter ok).length
  | [], _ => by simp
  | b :: L, acc => by
    rw [List.foldl_cons]
    by_cases hok : ok b = true
    · rw [if_pos hok, foldBlocks_count ok d L (upsertBlock acc.1 d b, acc.2 + 1),
        List.filter_cons_of_pos hok, List.length_cons]
      omega
    · rw [if_neg hok, foldBlocks_count ok d L acc,
        List.filter_cons_of_neg (by simpa using hok)]

theorem foldBlocks_frame (ok : BlockOk) (d : String) :
    ∀ (L : List Block) (acc : StoreState × Nat),
      ∃ nb, (L.foldl (fun a b => if ok b then (upsertBlock a.1 d b, a.2 + 1) else a) acc).1 =
        setBlocks acc.1 nb
  | [], acc => ⟨acc.1.blocks, rfl⟩
  | b :: L, acc => by
    rw [List.foldl_cons]
    by_cases hok : ok b = true
    · rw [if_pos hok]
      obtain ⟨nb1, h1⟩ := upsertBlock_frame acc.1 d b
      obtain ⟨nb2, h2⟩ := foldBlocks_frame ok d L (upsertBlock acc.1 d b, acc.2 + 1)
      refine ⟨nb2, ?_⟩
      rw [h2, h1]
      rfl
    · rw [if_neg hok]
      exact foldBlocks_frame ok d L acc

theorem storeBlocks_of_settled (d : String) (L : List Block) (st : StoreState)
    (hs : ∀ b ∈ L, blockSettled st b) :
    storeBlocks allBlocksOk L d st = (st, L.length) := by
  unfold storeBlocks
  rw [foldBlocks_of_settled d L st 0 hs, Nat.zero_add]

theorem storeBlocks_settles (d : String) (L : List Block) (st : StoreState)
    (hp : L.Pairwise (fun a b => a.id ≠ b.id)) :
    ∀ b ∈ L, blockSettled (storeBlocks allBlocksOk L d st).1 b := by
  unfold storeBlocks
  exact foldBlocks_settles d L st 0 hp

theorem storeBlocks_count (ok : BlockOk) (d : String) (L : List Block) (st : StoreState) :
    (storeBlocks ok L d st).2 = (L.filter ok).length := by
  unfold storeBlocks
  rw [foldBlocks_count ok d L (st, 0)]
  simp

theorem storeBlocks_frame (ok : BlockOk) (d : String) (L : List Block) (st : StoreState) :
    ∃ nb, (storeBlocks ok L d st).1 = setBlocks st nb := by
  unfold storeBlocks
  exact foldBlocks_frame ok d L (st, 0)

/-! ### The graph phase never reads the blocks column -/

theorem mergeEntity_blocks_congr (st : StoreState) (nb : List BlockRow) (n : String) :
    mergeEntity (setBlocks st nb) n = setBlocks (mergeEntity st n) nb := by
  unfold mergeEntity setBlocks
  dsimp only
  split <;> rfl

theorem mergeRelationship_blocks_congr (st : StoreState) (nb : List BlockRow)
    (s o p src dId : String) :
    mergeRelationship (setBlocks st nb) s o p src dId =
      setBlocks (mergeRelationship st s o p src dId) nb := by
  unfold mergeRelationship setBlocks
  dsimp only
  split
  · split <;> rfl
  · rfl

theorem mergeContains_blocks_congr (st : StoreState) (nb : List BlockRow) (dId n : String) :
    mergeContains (setBlocks st nb) dId n =
      setBlocks (mergeContains st dId n) nb := by
  unfold mergeContains setBlocks
  dsimp only
  split
  · split <;> rfl
  · rfl

theorem mergeDocument_blocks_congr (st : StoreState) (nb : List BlockRow) (dId : String)
    (m : List (String × String)) :
    mergeDocument (setBlocks st nb) dId m =
      setBlocks (mergeDocument st dId m) nb := by
  unfold mergeDocument setBlocks
  dsimp only
  split <;> rfl

theorem processTriple_blocks_congr (fail : TripleFailure) (dId : String) (t : Triple)
    (st : StoreState) (nb : List BlockRow) (n r : Nat) (log : List Triple) :
    processTriple fail dId (setBlocks st nb, n, r, log) t =
      (setBlocks (processTriple fail dId (st, n, r, log) t).1 nb,
       (processTriple fail dId (st, n, r, log) t).2) := by
  rcases hft : fail t with _ | k
  · rw [processTriple_none hft, processTriple_none hft]
    dsimp only
    rw [mergeEntity_blocks_congr, mergeEntity_blocks_congr, mergeRelationship_blocks_congr,
      mergeContains_blocks_congr, mergeContains_blocks_congr]
  · fin_cases k
    · rw [processTriple_fail0 hft, processTriple_fail0 hft]
    · rw [processTriple_fail1 hft, processTriple_fail1 hft]
      dsimp only
      rw [mergeEntity_blocks_congr]
    · rw [processTriple_fail2 hft, processTriple_fail2 hft]
      dsimp only
      rw [mergeEntity_blocks_congr, mergeEntity_blocks_congr]
    · rw [processTriple_fail3 hft, processTriple_fail3 hft]
      dsimp only
      rw [mergeEntity_blocks_congr, mergeEntity_blocks_congr, mergeRelationship_blocks_congr]
    · rw [processTriple_fail4 hft, processTriple_fail4 hft]
      dsimp only
      rw [mergeEntity_blocks_congr, mergeEntity_blocks_congr, mergeRelationship_blocks_congr,
        mergeContains_blocks_congr]

theorem foldTriples_blocks_congr (fail : TripleFailure) (dId : String) :
    ∀ (ts : List Triple) (st : StoreState) (nb : List BlockRow) (n r : Nat)
      (log : List Triple),
      ts.foldl (processTriple fail dId) (setBlocks st nb, n, r, log) =
        (setBlocks (ts.foldl (processTriple fail dId) (st, n, r, log)).1 nb,
         (ts.foldl (processTriple fail dId) (st, n, r, log)).2)
  | [], _, _, _, _, _ => rfl
  | t :: ts, st, nb, n, r, log => by
    rw [List.foldl_cons, List.foldl_cons, processTriple_blocks_congr]
    exact foldTriples_blocks_congr fail dId ts
      (processTriple fail dId (st, n, r, log) t).1 nb
      (processTriple fail dId (st, n, r, log) t).2.1
      (processTriple fail dId (st, n, r, log) t).2.2.1
      (processTriple fail dId (st, n, r, log) t).2.2.2

theorem ingestTriples_blocks_congr (fail : TripleFailure) (ts : List Triple) (dId : String)
    (m : List (String × String)) (st : StoreState) (nb : List BlockRow) :
    ingestTriples fail ts dId m (setBlocks st nb) =
      (setBlocks (ingestTriples fail ts dId m st).1 nb,
       (ingestTriples fail ts dId m st).2) := by
  unfold ingestTriples
  rw [mergeDocument_blocks_congr]
  exact foldTriples_blocks_congr fail dId ts (mergeDocument st dId m) nb 1 0 []

theorem ingestTriples_doc (fail : TripleFailure) (ts : List Triple) (dId : String)
    (m : List (String × String)) (st : StoreState) :
    docPresent (ingestTriples fail ts dId m st).1 dId := by
  unfold ingestTriples
  exact docPresent_mono (graphStep_foldTriples fail dId ts (mergeDocument st dId m, 1, 0, []))
    dId (mergeDocument_establishes st dId m)

theorem blockSettled_congr {st st' : StoreState} (h : st'.blocks = st.blocks) {b : Block}
    (hs : blockSettled st b) : blockSettled st' b := by
  unfold blockSettled at hs ⊢
  rw [h]
  exact hs

/-! ## Claim theorems -/

/-- C9: an out-of-range traversal depth and an out-of-range search limit are
both rejected as validation errors before any graph-store query is issued
(the second component, the number of store queries, is 0). -/
theorem claimC9_invalid_input_rejected (st : StoreState) (name pred : String)
    (depth limit : Int) (hd : depth < 1 ∨ 5 < depth) (hl : limit < 1 ∨ 500 < limit) :
    queryByEntityRoute st name depth = (RouteOutcome.validationError, 0) ∧
      searchByPredicateRoute st pred limit = (RouteOutcome.validationError, 0) := by
  unfold queryByEntityRoute searchByPredicateRoute
  rw [if_pos hd, if_pos hl]
  exact ⟨rfl, rfl⟩

theorem claimC9_witness :
    ((6 : Int) < 1 ∨ 5 < (6 : Int)) ∧ ((501 : Int) < 1 ∨ 500 < (501 : Int)) ∧
      (queryByEntityRoute emptyState "Paris" 6 = (RouteOutcome.validationError, 0) ∧
        searchByPredicateRoute emptyState "shall" 501 = (RouteOutcome.validationError, 0)) :=
  ⟨by decide, by decide,
    claimC9_invalid_input_rejected emptyState "Paris" "shall" 6 501 (by decide) (by decide)⟩

theorem snd_mem_of_mem_enumFrom {α : Type} :
    ∀ (l : List α) (i : Nat) (p : Nat × α), p ∈ l.enumFrom i → p.2 ∈ l
  | [], _, _, h => absurd h (List.not_mem_nil _)
  | a :: l, i, p, h => by
    rw [List.enumFrom] at h
    rcases List.mem_cons.mp h with rfl | h
    · exact List.mem_cons_self _ _
    · exact List.mem_cons_of_mem _ (snd_mem_of_mem_enumFrom l (i + 1) p h)

theorem pathsFrom_isolated (edges : List GEdge) (name : String)
    (hiso : ∀ e ∈ edges, e.stepFrom (GNode.ent name) = []) :
    ∀ (fuel : Nat) (used : List Nat), pathsFrom edges used (GNode.ent name) fuel = []
  | 0, _ => rfl
  | fuel + 1, used => by
    unfold pathsFrom
    rw [List.flatMap_eq_nil_iff]
    intro p hp
    by_cases hu : p.1 ∈ used
    · rw [if_pos hu]
    · rw [if_neg hu]
      have hmem : p.2 ∈ edges := snd_mem_of_mem_enumFrom edges 0 p hp
      rw [hiso p.2 hmem]
      rfl

/-- C10: an Entity node that exists but has no incident relationship of any
kind (neither a typed edge nor a CONTAINS edge) yields no traversal path, so
the service returns the empty result and the route reports 404 Not Found
rather than an empty neighborhood. -/
theorem claimC10_isolated_entity_not_found (st : StoreState) (name : String) (depth : Int)
    (hent : ∃ e ∈ st.entities, e.name = name)
    (hrel : ∀ r ∈ st.rels, r.subject ≠ name ∧ r.object ≠ name)
    (hcon : ∀ c ∈ st.contains, c.entity ≠ name)
    (hdep : 1 ≤ depth ∧ depth ≤ 5) :
    queryGraphByEntity st name depth.toNat = none ∧
      queryByEntityRoute st name depth = (RouteOutcome.notFound, 1) := by
  have hiso : ∀ e ∈ allEdges st, e.stepFrom (GNode.ent name) = [] := by
    intro e he
    rcases e with r | c
    · have hr : r ∈ st.rels := by
        unfold allEdges at he
        rcases List.mem_append.mp he with h | h
        · rcases List.mem_map.mp h with ⟨x, hx, hxe⟩
          injection hxe with hxr
          exact hxr ▸ hx
        · rcases List.mem_map.mp h with ⟨x, _, hxe⟩
          exact absurd hxe (by simp)
      have h1 : ¬(GNode.ent r.subject = GNode.ent name) := by
        intro hx
        injection hx with hx
        exact (hrel r hr).1 hx
      have h2 : ¬(GNode.ent r.object = GNode.ent name) := by
        intro hx
        injection hx with hx
        exact (hrel r hr).2 hx
      simp [GEdge.stepFrom, GEdge.ends, h1, h2]
    · have hc : c ∈ st.contains := by
        unfold allEdges at he
        rcases List.mem_append.mp he with h | h
        · rcases List.mem_map.mp h with ⟨x, _, hxe⟩
          exact absurd hxe (by simp)
        · rcases List.mem_map.mp h with ⟨x, hx, hxe⟩
          injection hxe with hxc
          exact hxc ▸ hx
      have h2 : ¬(GNode.ent c.entity = GNode.ent name) := by
        intro hx
        injection hx with hx
        exact hcon c hc hx
      simp [GEdge.stepFrom, GEdge.ends, h2]
  have hq : queryGraphByEntity st name depth.toNat = none := by
    unfold queryGraphByEntity
    rcases hf : st.entities.find? (fun e => e.name = name) with _ | e
    · simp [hf]
    · simp only [hf]
      rw [pathsFrom_isolated (allEdges st) name hiso depth.toNat []]
      rfl
  refine ⟨hq, ?_⟩
  unfold queryByEntityRoute
  rw [if_neg (by omega), hq]

/-- A store holding a single isolated entity named Paris. -/
def isolatedParisState : StoreState :=
  { docs := [], entities := [⟨"Paris", 0, "Generic", 0⟩], rels := [], contains := [],
    blocks := [], clock := 0, uuidCounter := 1 }

theorem claimC10_witness :
    (∃ e ∈ isolatedParisState.entities, e.name = "Paris") ∧
      queryGraphByEntity isolatedParisState "Paris" ((2 : Int).toNat) = none ∧
      queryByEntityRoute isolatedParisState "Paris" 2 = (RouteOutcome.notFound, 1) := by
  refine ⟨by decide, ?_, ?_⟩
  · exact (claimC10_isolated_entity_not_found isolatedParisState "Paris" 2
      ⟨⟨"Paris", 0, "Generic", 0⟩, by decide, rfl⟩ (by decide) (by decide) (by decide)).1
  · exact (claimC10_isolated_entity_not_found isolatedParisState "Paris" 2
      ⟨⟨"Paris", 0, "Generic", 0⟩, by decide, rfl⟩ (by decide) (by decide) (by decide)).2

/-- C5 counterexample: re-asserting the same (subject, type, object) under a
second document D2 leaves the shared edge's `document_id` at the first
asserter D1 (the attribute is set only `ON CREATE`), so it is not the most
recent asserter. -/
theorem claimC5_counterexample :
    ((ingestTriplesAndBlocks allBlocksOk noTripleFailure
        ⟨[⟨"Paris", "capital_of", "France", "b1"⟩], [], some "D2", []⟩
        (ingestTriplesAndBlocks allBlocksOk noTripleFailure
          ⟨[⟨"Paris", "capital_of", "France", "b1"⟩], [], some "D1", []⟩
          emptyState).1).1.rels.map fun r => r.document_id) = ["D1"] ∧
      "D1" ≠ "D2" := by
  refine ⟨by decide, by decide⟩

theorem resolveDocumentId_rels (st : StoreState) (o : Option String) :
    (resolveDocumentId st o).2.rels = st.rels := by
  cases o with
  | none => rfl
  | some d =>
    by_cases hd : d = ""
    · simp [resolveDocumentId, hd]
    · simp [resolveDocumentId, hd]

/-- C5 amended: the `document_id` of a shared relationship edge is the
document that first asserted it: ingestion never rewrites an existing edge
(all its attributes survive unchanged) and never adds a second edge with the
same (subject, type, object) key. -/
theorem claimC5_amended_first_assertion_wins (ok : BlockOk) (fail : TripleFailure)
    (req : TripleIngestionRequest) (st : StoreState) (r : RelEdge) (h : r ∈ st.rels) :
    r ∈ (ingestTriplesAndBlocks ok fail req st).1.rels ∧
      (ingestTriplesAndBlocks ok fail req st).1.rels.filter
          (fun x => x.subject = r.subject ∧ x.relType = r.relType ∧ x.object = r.object) =
        st.rels.filter
          (fun x => x.subject = r.subject ∧ x.relType = r.relType ∧ x.object = r.object) := by
  obtain ⟨ts, bs, od, md⟩ := req
  have main : ∀ (d0 : String) (base : StoreState), base.rels = st.rels →
      r ∈ (ingestTriples fail ts d0 md (storeBlocks ok bs d0 base).1).1.rels ∧
        (ingestTriples fail ts d0 md (storeBlocks ok bs d0 base).1).1.rels.filter
            (fun x => x.subject = r.subject ∧ x.relType = r.relType ∧ x.object = r.object) =
          st.rels.filter
            (fun x => x.subject = r.subject ∧ x.relType = r.relType ∧ x.object = r.object) := by
    intro d0 base hbase
    obtain ⟨nb, hnb⟩ := storeBlocks_frame ok d0 bs base
    obtain ⟨a, ha, hnov⟩ :=
      (graphStep_ingestTriples fail ts d0 md (storeBlocks ok bs d0 base).1).rels_ext
    have hsb : (storeBlocks ok bs d0 base).1.rels = st.rels := by
      rw [hnb]
      exact hbase
    rw [ha, hsb]
    constructor
    · exact List.mem_append_left _ h
    · rw [List.filter_append]
      have hnil : a.filter
          (fun x => x.subject = r.subject ∧ x.relType = r.relType ∧ x.object = r.object) = [] := by
        rw [List.filter_eq_nil_iff]
        intro x hx
        simp only [decide_eq_true_eq]
        exact hnov x hx r (hsb ▸ h)
      rw [hnil, List.append_nil]
  simp only [ingestTriplesAndBlocks]
  exact main (resolveDocumentId st od).1 (resolveDocumentId st od).2
    (resolveDocumentId_rels st od)

/-- A store holding one relationship edge first asserted by document D1. -/
def oneEdgeState : StoreState :=
  { docs := [], entities := [], rels := [⟨"A", "P", "B", "p", "s", "D1", 0⟩],
    contains := [], blocks := [], clock := 0, uuidCounter := 0 }

theorem claimC5_amended_witness :
    (⟨"A", "P", "B", "p", "s", "D1", 0⟩ : RelEdge) ∈ oneEdgeState.rels ∧
      (⟨"A", "P", "B", "p", "s", "D1", 0⟩ : RelEdge) ∈
        (ingestTriplesAndBlocks allBlocksOk noTripleFailure ⟨[], [], some "D2", []⟩
          oneEdgeState).1.rels := by
  refine ⟨by decide, ?_⟩
  exact (claimC5_amended_first_assertion_wins allBlocksOk noTripleFailure
    ⟨[], [], some "D2", []⟩ oneEdgeState ⟨"A", "P", "B", "p", "s", "D1", 0⟩ (by decide)).1

theorem processTriple_log (fail : TripleFailure) (dId : String)
    (acc : StoreState × Nat × Nat × List Triple) (t : Triple) :
    (processTriple fail dId acc t).2.2.2 =
      if (fail t).isSome then acc.2.2.2 ++ [t] else acc.2.2.2 := by
  obtain ⟨st, n, r, log⟩ := acc
  rcases hft : fail t with _ | k
  · rw [processTriple_none hft]
    rfl
  · fin_cases k
    · rw [processTriple_fail0 hft]
      rfl
    · rw [processTriple_fail1 hft]
      rfl
    · rw [processTriple_fail2 hft]
      rfl
    · rw [processTriple_fail3 hft]
      rfl
    · rw [processTriple_fail4 hft]
      rfl

theorem foldTriples_log (fail : TripleFailure) (dId : String) :
    ∀ (ts : List Triple) (acc : StoreState × Nat × Nat × List Triple),
      (ts.foldl (processTriple fail dId) acc).2.2.2 =
        acc.2.2.2 ++ ts.filter (fun t => (fail t).isSome)
  | [], acc => by simp
  | t :: ts, acc => by
    rw [List.foldl_cons, foldTriples_log fail dId ts (processTriple fail dId acc t),
      processTriple_log fail dId acc t]
    by_cases hft : (fail t).isSome = true
    · rw [if_pos hft, List.filter_cons_of_pos (p := fun t => (fail t).isSome) hft,
        List.append_assoc]
      rfl
    · rw [if_neg hft,
        List.filter_cons_of_neg (p := fun t => (fail t).isSome) (by simpa using hft)]

/-- C7: each failing triple is logged and processing simply continues: the
failure log is exactly the failing triples in input order, the loop is a fold
(so the work done on a prefix never blocks the suffix, whatever failures the
prefix contains), and the call always returns aggregate statistics with
`triples_processed` equal to the full input length. -/
theorem claimC7_per_triple_failure_isolated (fail : TripleFailure) (dId : String)
    (m : List (String × String)) :
    (∀ (ts : List Triple) (st : StoreState),
        (ingestTriples fail ts dId m st).2.2.2 = ts.filter fun t => (fail t).isSome) ∧
      (∀ (p q : List Triple) (acc : StoreState × Nat × Nat × List Triple),
        (p ++ q).foldl (processTriple fail dId) acc =
          q.foldl (processTriple fail dId) (p.foldl (processTriple fail dId) acc)) ∧
      (∀ (ok : BlockOk) (req : TripleIngestionRequest) (st : StoreState),
        (ingestTriplesAndBlocks ok fail req st).2.triples_processed = req.triples.length) := by
  refine ⟨?_, ?_, ?_⟩
  · intro ts st
    unfold ingestTriples
    rw [foldTriples_log]
    simp
  · intro p q acc
    exact List.foldl_append (processTriple fail dId) acc p q
  · intro ok req st
    obtain ⟨ts, bs, od, md⟩ := req
    rfl

/-- C6: block upserts are independent units: the reported count is exactly
the number of successful upserts, the graph side of the ingestion (entities,
edges, containments, reported creation counts) does not depend on which
blocks failed, and the quoted scenario of one malformed block among five
reports `blocks_stored = 4` while the triple is still ingested. -/
theorem claimC6_block_upserts_independent :
    (∀ (ok : BlockOk) (L : List Block) (d : String) (st : StoreState),
        (storeBlocks ok L d st).2 = (L.filter ok).length) ∧
      (∀ (ok1 ok2 : BlockOk) (fail : TripleFailure) (req : TripleIngestionRequest)
          (st : StoreState),
        (ingestTriplesAndBlocks ok1 fail req st).1.entities =
            (ingestTriplesAndBlocks ok2 fail req st).1.entities ∧
          (ingestTriplesAndBlocks ok1 fail req st).1.rels =
            (ingestTriplesAndBlocks ok2 fail req st).1.rels ∧
          (ingestTriplesAndBlocks ok1 fail req st).1.contains =
            (ingestTriplesAndBlocks ok2 fail req st).1.contains ∧
          (ingestTriplesAndBlocks ok1 fail req st).2.nodes_created =
            (ingestTriplesAndBlocks ok2 fail req st).2.nodes_created ∧
          (ingestTriplesAndBlocks ok1 fail req st).2.relationships_created =
            (ingestTriplesAndBlocks ok2 fail req st).2.relationships_created) ∧
      ((ingestTriplesAndBlocks (fun b => b.id ≠ "bad") noTripleFailure
          ⟨[⟨"Paris", "capital_of", "France", "b1"⟩],
            [⟨"b1", "t1", [], []⟩, ⟨"b2", "t2", [], []⟩, ⟨"bad", "t3", [], []⟩,
              ⟨"b4", "t4", [], []⟩, ⟨"b5", "t5", [], []⟩], some "D1", []⟩
          emptyState).2.blocks_stored = 4 ∧
        (ingestTriplesAndBlocks (fun b => b.id ≠ "bad") noTripleFailure
          ⟨[⟨"Paris", "capital_of", "France", "b1"⟩],
            [⟨"b1", "t1", [], []⟩, ⟨"b2", "t2", [], []⟩, ⟨"bad", "t3", [], []⟩,
              ⟨"b4", "t4", [], []⟩, ⟨"b5", "t5", [], []⟩], some "D1", []⟩
          emptyState).2.relationships_created = 1) := by
  refine ⟨?_, ?_, by decide, by decide⟩
  · intro ok L d st
    exact storeBlocks_count ok d L st
  · intro ok1 ok2 fail req st
    obtain ⟨ts, bs, od, md⟩ := req
    have main : ∀ (ok : BlockOk) (d0 : String) (base : StoreState),
        ∃ nb, ingestTriples fail ts d0 md (storeBlocks ok bs d0 base).1 =
          (setBlocks (ingestTriples fail ts d0 md base).1 nb,
           (ingestTriples fail ts d0 md base).2) := by
      intro ok d0 base
      obtain ⟨nb, hnb⟩ := storeBlocks_frame ok d0 bs base
      refine ⟨nb, ?_⟩
      rw [hnb, ingestTriples_blocks_congr]
    simp only [ingestTriplesAndBlocks]
    obtain ⟨nb1, h1⟩ := main ok1 (resolveDocumentId st od).1 (resolveDocumentId st od).2
    obtain ⟨nb2, h2⟩ := main ok2 (resolveDocumentId st od).1 (resolveDocumentId st od).2
    rw [h1, h2]
    exact ⟨rfl, rfl, rfl, rfl, rfl⟩

/-- C8: a triple ingested with predicate "Shall Comply" is found again by a
predicate search for "shall_comply" (both normalize to the relationship type
SHALL_COMPLY), and the returned record carries the original predicate string,
not the normalized token. -/
theorem claimC8_predicate_roundtrip (subj obj src d : String) :
    searchByPredicate
      (ingestTriplesAndBlocks allBlocksOk noTripleFailure
        ⟨[⟨subj, "Shall Comply", obj, src⟩], [], some d, []⟩ emptyState).1
      "shall_comply" 10 = [⟨subj, "Shall Comply", obj, src⟩] := by
  have hsc : sanitizeRelationshipType "Shall Comply" = "SHALL_COMPLY" := by decide
  have hsc2 : sanitizeRelationshipType "shall_comply" = "SHALL_COMPLY" := by decide
  by_cases hd : d = ""
  · subst hd
    by_cases hso : subj = obj
    · subst hso
      simp [ingestTriplesAndBlocks, resolveDocumentId, ingestTriples, storeBlocks,
        mergeDocument, mergeEntity, mergeRelationship, mergeContains, processTriple,
        noTripleFailure, searchByPredicate, emptyState, hsc, hsc2]
    · simp [ingestTriplesAndBlocks, resolveDocumentId, ingestTriples, storeBlocks,
        mergeDocument, mergeEntity, mergeRelationship, mergeContains, processTriple,
        noTripleFailure, searchByPredicate, emptyState, hsc, hsc2, hso, Ne.symm hso]
  · by_cases hso : subj = obj
    · subst hso
      simp [ingestTriplesAndBlocks, resolveDocumentId, hd, ingestTriples, storeBlocks,
        mergeDocument, mergeEntity, mergeRelationship, mergeContains, processTriple,
        noTripleFailure, searchByPredicate, emptyState, hsc, hsc2]
    · simp [ingestTriplesAndBlocks, resolveDocumentId, hd, ingestTriples, storeBlocks,
        mergeDocument, mergeEntity, mergeRelationship, mergeContains, processTriple,
        noTripleFailure, searchByPredicate, emptyState, hsc, hsc2, hso, Ne.symm hso]

theorem doomed_iff (st : StoreState) (docId name : String) :
    doomed st docId name = true ↔
      ((∃ c ∈ st.contains, c.document_id = docId ∧ c.entity = name) ∧
        ¬∃ c ∈ st.contains, c.entity = name ∧ c.document_id ≠ docId ∧
          ∃ dn ∈ st.docs, dn.id = c.document_id) := by
  unfold doomed
  simp [List.any_eq_true]

/-- C4: deleting a document removes its Document node and its block rows;
an entity it contains whose only containment comes from this document is
deleted together with every incident edge, while an entity still contained
by another existing document survives. -/
theorem claimC4_deletion_cascade (st : StoreState) (docId : String) :
    (∀ dn ∈ (deleteDocument st docId).docs, dn.id ≠ docId) ∧
      (deleteDocument st docId).blocks = st.blocks.filter (fun b => b.document_id ≠ docId) ∧
      (docPresent st docId →
        ∀ e ∈ st.entities,
          (∃ c ∈ st.contains, c.document_id = docId ∧ c.entity = e.name) →
          (¬∃ c ∈ st.contains, c.entity = e.name ∧ c.document_id ≠ docId ∧
            ∃ dn ∈ st.docs, dn.id = c.document_id) →
          e ∉ (deleteDocument st docId).entities ∧
            (∀ r ∈ (deleteDocument st docId).rels, r.subject ≠ e.name ∧ r.object ≠ e.name) ∧
            (∀ c ∈ (deleteDocument st docId).contains, c.entity ≠ e.name)) ∧
      (∀ e ∈ st.entities,
        (∃ c ∈ st.contains, c.entity = e.name ∧ c.document_id ≠ docId ∧
          ∃ dn ∈ st.docs, dn.id = c.document_id) →
        e ∈ (deleteDocument st docId).entities) := by
  unfold deleteDocument
  dsimp only
  by_cases hdoc : st.docs.any (fun d => d.id = docId) = true
  · rw [if_pos hdoc]
    refine ⟨?_, rfl, ?_, ?_⟩
    · intro dn hdn
      have := List.mem_filter.mp hdn
      simpa using this.2
    · intro _ e _ hcon hshared
      have hd : doomed st docId e.name = true := (doomed_iff st docId e.name).mpr
        ⟨hcon, hshared⟩
      refine ⟨?_, ?_, ?_⟩
      · intro hmem
        have := List.mem_filter.mp hmem
        simp only [decide_eq_true_eq] at this
        exact this.2 hd
      · intro r hr
        have := List.mem_filter.mp hr
        simp only [decide_eq_true_eq] at this
        constructor
        · intro hs
          exact this.2.1 (hs ▸ hd)
        · intro ho
          exact this.2.2 (ho ▸ hd)
      · intro c hc
        have := List.mem_filter.mp hc
        simp only [decide_eq_true_eq] at this
        intro hce
        exact this.2.2 (hce ▸ hd)
    · intro e he hsh
      have hdf : doomed st docId e.name = false := by
        rcases hb : doomed st docId e.name with _ | _
        · rfl
        · exact absurd (((doomed_iff st docId e.name).mp hb).2 hsh) (fun f => f)
      refine List.mem_filter.mpr ⟨he, ?_⟩
      simp [hdf]
  · rw [if_neg hdoc]
    refine ⟨?_, rfl, ?_, ?_⟩
    · intro dn hdn
      rw [Bool.not_eq_true, List.any_eq_false] at hdoc
      simpa using hdoc dn hdn
    · intro hdocp
      exact absurd hdocp hdoc
    · intro e he _
      exact he

/-- A store built by two single-triple ingests: D1 contains Paris and Lyon,
D2 contains Paris and France. -/
def twoDocState : StoreState :=
  (ingestTriplesAndBlocks allBlocksOk noTripleFailure
    ⟨[⟨"Paris", "capital_of", "France", "b2"⟩], [], some "D2", []⟩
    (ingestTriplesAndBlocks allBlocksOk noTripleFailure
      ⟨[⟨"Paris", "near", "Lyon", "b1"⟩], [], some "D1", []⟩ emptyState).1).1

theorem claimC4_witness :
    docPresent twoDocState "D1" ∧
      (∃ eLyon ∈ twoDocState.entities, eLyon.name = "Lyon") ∧
      ((deleteDocument twoDocState "D1").entities.map (fun e => e.name) =
        ["Paris", "France"]) ∧
      (∀ e ∈ twoDocState.entities, e.name = "Lyon" →
        e ∉ (deleteDocument twoDocState "D1").entities) ∧
      (∀ e ∈ twoDocState.entities, e.name = "Paris" →
        e ∈ (deleteDocument twoDocState "D1").entities) := by
  refine ⟨by decide, by decide, by decide, ?_, ?_⟩
  · intro e he hname
    have h := (claimC4_deletion_cascade twoDocState "D1").2.2.1 (by decide) e he
    refine (h ?_ ?_).1
    · rw [hname]
      decide
    · rw [hname]
      decide
  · intro e he hname
    apply (claimC4_deletion_cascade twoDocState "D1").2.2.2 e he
    rw [hname]
    decide

/-- C1 counterexample: re-ingesting the identical request does not report
zero creations: with one triple the second response reports nodes_created =
3 and relationships_created = 1 (one per merge, regardless of novelty); and
a falsy document_id — absent, or equally the empty string, since Python's
`or` tests truthiness — draws a fresh UUID on every call, so the second call
creates a second Document with fresh containment edges and the final state
differs too. -/
theorem claimC1_counterexample :
    (ingestTriplesAndBlocks allBlocksOk noTripleFailure
        ⟨[⟨"Paris", "capital_of", "France", "b1"⟩], [], some "", []⟩
        (ingestTriplesAndBlocks allBlocksOk noTripleFailure
          ⟨[⟨"Paris", "capital_of", "France", "b1"⟩], [], some "", []⟩
          emptyState).1).1.contains.length ≠
        (ingestTriplesAndBlocks allBlocksOk noTripleFailure
          ⟨[⟨"Paris", "capital_of", "France", "b1"⟩], [], some "", []⟩
          emptyState).1.contains.length ∧
    (ingestTriplesAndBlocks allBlocksOk noTripleFailure
        ⟨[⟨"Paris", "capital_of", "France", "b1"⟩], [], none, []⟩
        (ingestTriplesAndBlocks allBlocksOk noTripleFailure
          ⟨[⟨"Paris", "capital_of", "France", "b1"⟩], [], none, []⟩
          emptyState).1).2.nodes_created = 3 ∧
      (ingestTriplesAndBlocks allBlocksOk noTripleFailure
        ⟨[⟨"Paris", "capital_of", "France", "b1"⟩], [], none, []⟩
        (ingestTriplesAndBlocks allBlocksOk noTripleFailure
          ⟨[⟨"Paris", "capital_of", "France", "b1"⟩], [], none, []⟩
          emptyState).1).2.relationships_created = 1 ∧
      (ingestTriplesAndBlocks allBlocksOk noTripleFailure
        ⟨[⟨"Paris", "capital_of", "France", "b1"⟩], [], none, []⟩
        (ingestTriplesAndBlocks allBlocksOk noTripleFailure
          ⟨[⟨"Paris", "capital_of", "France", "b1"⟩], [], none, []⟩
          emptyState).1).1.contains.length ≠
        (ingestTriplesAndBlocks allBlocksOk noTripleFailure
          ⟨[⟨"Paris", "capital_of", "France", "b1"⟩], [], none, []⟩
          emptyState).1.contains.length := by
  refine ⟨by decide, by decide, by decide, by decide⟩

/-- C1 amended: for a request with a caller-supplied truthy (non-empty)
document id whose block ids are pairwise distinct, re-ingesting leaves
entities, relationship edges, containment edges and block rows exactly as
after the first call; the second response reports blocks_stored = |blocks|
and the optimistic counts nodes_created = 1 + 2·|triples| and
relationships_created = |triples|, not zero.  (A falsy document id — absent
or empty — is replaced by a fresh UUID on every call, so even the state is
not idempotent there.) -/
theorem claimC1_amended_ingest_idempotent (req : TripleIngestionRequest) (st0 : StoreState)
    (d : String) (hdoc : req.document_id = some d) (hne : d ≠ "")
    (hids : req.blocks.Pairwise fun a b => a.id ≠ b.id) :
    ((ingestTriplesAndBlocks allBlocksOk noTripleFailure req
        (ingestTriplesAndBlocks allBlocksOk noTripleFailure req st0).1).1.entities =
          (ingestTriplesAndBlocks allBlocksOk noTripleFailure req st0).1.entities ∧
      (ingestTriplesAndBlocks allBlocksOk noTripleFailure req
        (ingestTriplesAndBlocks allBlocksOk noTripleFailure req st0).1).1.rels =
          (ingestTriplesAndBlocks allBlocksOk noTripleFailure req st0).1.rels ∧
      (ingestTriplesAndBlocks allBlocksOk noTripleFailure req
        (ingestTriplesAndBlocks allBlocksOk noTripleFailure req st0).1).1.contains =
          (ingestTriplesAndBlocks allBlocksOk noTripleFailure req st0).1.contains ∧
      (ingestTriplesAndBlocks allBlocksOk noTripleFailure req
        (ingestTriplesAndBlocks allBlocksOk noTripleFailure req st0).1).1.blocks =
          (ingestTriplesAndBlocks allBlocksOk noTripleFailure req st0).1.blocks) ∧
      (ingestTriplesAndBlocks allBlocksOk noTripleFailure req
        (ingestTriplesAndBlocks allBlocksOk noTripleFailure req st0).1).2.nodes_created =
        1 + 2 * req.triples.length ∧
      (ingestTriplesAndBlocks allBlocksOk noTripleFailure req
        (ingestTriplesAndBlocks allBlocksOk noTripleFailure req st0).1).2.relationships_created =
        req.triples.length ∧
      (ingestTriplesAndBlocks allBlocksOk noTripleFailure req
        (ingestTriplesAndBlocks allBlocksOk noTripleFailure req st0).1).2.blocks_stored =
        req.blocks.length := by
  obtain ⟨ts, bs, od, md⟩ := req
  dsimp only at hdoc hids ⊢
  subst hdoc
  have hres : ∀ stx : StoreState, resolveDocumentId stx (some d) = (d, stx) := by
    intro stx
    simp [resolveDocumentId, hne]
  simp only [ingestTriplesAndBlocks, hres]
  have hfail : ∀ t, noTripleFailure t = none := fun _ => rfl
  set B1 := storeBlocks allBlocksOk bs d st0 with hB1
  set T1 := ingestTriples noTripleFailure ts d md B1.1 with hT1
  set F1 : StoreState := { T1.1 with clock := T1.1.clock + 1 } with hF1
  have hset1 : ∀ b ∈ bs, blockSettled B1.1 b := storeBlocks_settles d bs st0 hids
  have hbl : T1.1.blocks = B1.1.blocks :=
    (graphStep_ingestTriples noTripleFailure ts d md B1.1).blocks_eq
  have hsetF : ∀ b ∈ bs, blockSettled F1 b := by
    intro b hb
    exact blockSettled_congr (show F1.blocks = B1.1.blocks from hbl) (hset1 b hb)
  have hB2 : storeBlocks allBlocksOk bs d F1 = (F1, bs.length) :=
    storeBlocks_of_settled d bs F1 hsetF
  have hkeys : ∀ t ∈ ts, tripleKeys F1 d t := fun t ht =>
    ingestTriples_establishes hfail ts d md B1.1 t ht
  have hT2 : ingestTriples noTripleFailure ts d md (storeBlocks allBlocksOk bs d F1).1 =
      (mergeDocument F1 d md, 1 + 2 * ts.length, 0 + ts.length, []) := by
    rw [hB2]
    exact ingestTriples_id hfail ts d md F1 hkeys
  refine ⟨⟨?_, ?_, ?_, ?_⟩, ?_, ?_, ?_⟩
  · rw [hT2]
    exact (mergeDocument_frame F1 d md).1
  · rw [hT2]
    exact (mergeDocument_frame F1 d md).2.1
  · rw [hT2]
    exact (mergeDocument_frame F1 d md).2.2.1
  · rw [hT2]
    exact (mergeDocument_frame F1 d md).2.2.2
  · rw [hT2]
  · rw [hT2]
    exact Nat.zero_add ts.length
  · rw [hB2]

theorem claimC1_amended_witness :
    ((⟨[⟨"Paris", "capital_of", "France", "b1"⟩], [⟨"b1", "text", [], []⟩], some "D1",
        []⟩ : TripleIngestionRequest).document_id = some "D1") ∧
      ("D1" : String) ≠ "" ∧
      (ingestTriplesAndBlocks allBlocksOk noTripleFailure
        ⟨[⟨"Paris", "capital_of", "France", "b1"⟩], [⟨"b1", "text", [], []⟩], some "D1", []⟩
        (ingestTriplesAndBlocks allBlocksOk noTripleFailure
          ⟨[⟨"Paris", "capital_of", "France", "b1"⟩], [⟨"b1", "text", [], []⟩], some "D1",
            []⟩ emptyState).1).2.nodes_created = 1 + 2 * 1 := by
  refine ⟨rfl, by decide, ?_⟩
  exact (claimC1_amended_ingest_idempotent
    ⟨[⟨"Paris", "capital_of", "France", "b1"⟩], [⟨"b1", "text", [], []⟩], some "D1", []⟩
    emptyState "D1" rfl (by decide) (by decide)).2.1

end GraphRag
